import Mathlib

-- Verification development for the write-ahead-log (WAL) core of a small
-- page-oriented storage engine (src/log/log_manager.cc).  The log file is
-- modelled as a list of bytes (Nat values < 256); multi-byte integers are
-- written little-endian, 8 bytes per uint64.  The buffer manager is an
-- external collaborator: every interaction with it is recorded as an
-- explicit `BufferOp` in the order the code performs it, and a separate
-- interpreter (`applyBufferOps`) gives page semantics to those operations.

namespace Buzzdb

-- ## Byte-level file primitives (storage/test_file contract)

/-- Read one byte of the file; bytes beyond the end read as zero
(resize zero-fills new bytes). Mirrors read_block of a single byte. -/
def readByte (f : List Nat) (i : Nat) : Nat := f.getD i 0

/-- Read a uint64 stored little-endian at byte offset off
(read_block of 8 bytes into a uint64). -/
def readU64 (f : List Nat) (off : Nat) : Nat :=
  readByte f off
  + 256 * readByte f (off + 1)
  + 65536 * readByte f (off + 2)
  + 16777216 * readByte f (off + 3)
  + 4294967296 * readByte f (off + 4)
  + 1099511627776 * readByte f (off + 5)
  + 281474976710656 * readByte f (off + 6)
  + 72057594037927936 * readByte f (off + 7)

/-- Read len bytes starting at off (read_block into a fresh buffer). -/
def readBytes (f : List Nat) (off len : Nat) : List Nat :=
  (List.range len).map (fun i => readByte f (off + i))

/-- The 8 little-endian bytes of a uint64 value. -/
def u64bytes (n : Nat) : List Nat :=
  [n % 256, n / 256 % 256, n / 65536 % 256, n / 16777216 % 256,
   n / 4294967296 % 256, n / 1099511627776 % 256,
   n / 281474976710656 % 256, n / 72057594037927936 % 256]

/-- File::resize - grow with zero bytes or shrink by truncation. -/
def resizeFile (f : List Nat) (n : Nat) : List Nat :=
  f.take n ++ List.replicate (n - f.length) 0

/-- File::write_block - overwrite bs.length bytes of f starting at off
(writes past the end of the file never occur in the translated code,
the file is always resized first). -/
def writeBytes (f : List Nat) (off : Nat) (bs : List Nat) : List Nat :=
  f.take off ++ bs.take (f.length - off) ++ f.drop (off + bs.length)

/-- The len bytes that write_block reads from a caller buffer bs
(memcpy semantics; a too-short buffer contributes zero bytes, which
never happens for the well-formed calls the theorems are about). -/
def blockOf (bs : List Nat) (len : Nat) : List Nat :=
  bs.take len ++ List.replicate (len - bs.length) 0

-- ## Log record kinds (enum class LogRecordType, tag byte = ordinal)

inductive LogRecordType where
  | INVALID_RECORD_TYPE
  | ABORT_RECORD
  | COMMIT_RECORD
  | UPDATE_RECORD
  | BEGIN_RECORD
  | CHECKPOINT_RECORD
  | BEGIN_FUZZY_CHECKPOINT_RECORD
  | END_FUZZY_CHECKPOINT_RECORD
  deriving DecidableEq

/-- static_cast<unsigned char> of the enum value. -/
def tagOf : LogRecordType → Nat
  | .INVALID_RECORD_TYPE => 0
  | .ABORT_RECORD => 1
  | .COMMIT_RECORD => 2
  | .UPDATE_RECORD => 3
  | .BEGIN_RECORD => 4
  | .CHECKPOINT_RECORD => 5
  | .BEGIN_FUZZY_CHECKPOINT_RECORD => 6
  | .END_FUZZY_CHECKPOINT_RECORD => 7

-- ## Per-kind record counters (std::map<LogRecordType, uint64_t>)

structure TypeCounts where
  abort_count : Nat
  commit_count : Nat
  update_count : Nat
  begin_count : Nat
  checkpoint_count : Nat
  begin_fuzzy_count : Nat
  end_fuzzy_count : Nat
  deriving DecidableEq

def zeroCounts : TypeCounts := ⟨0, 0, 0, 0, 0, 0, 0⟩

/-- log_record_type_to_count[type]++ (incrementing the INVALID count never
occurs in the source). -/
def bumpCount (c : TypeCounts) : LogRecordType → TypeCounts
  | .INVALID_RECORD_TYPE => c
  | .ABORT_RECORD => { c with abort_count := c.abort_count + 1 }
  | .COMMIT_RECORD => { c with commit_count := c.commit_count + 1 }
  | .UPDATE_RECORD => { c with update_count := c.update_count + 1 }
  | .BEGIN_RECORD => { c with begin_count := c.begin_count + 1 }
  | .CHECKPOINT_RECORD => { c with checkpoint_count := c.checkpoint_count + 1 }
  | .BEGIN_FUZZY_CHECKPOINT_RECORD => { c with begin_fuzzy_count := c.begin_fuzzy_count + 1 }
  | .END_FUZZY_CHECKPOINT_RECORD => { c with end_fuzzy_count := c.end_fuzzy_count + 1 }

/-- log_record_type_to_count[type] (reads of the INVALID count never
occur in the source; it stays 0). -/
def getCount (c : TypeCounts) : LogRecordType → Nat
  | .INVALID_RECORD_TYPE => 0
  | .ABORT_RECORD => c.abort_count
  | .COMMIT_RECORD => c.commit_count
  | .UPDATE_RECORD => c.update_count
  | .BEGIN_RECORD => c.begin_count
  | .CHECKPOINT_RECORD => c.checkpoint_count
  | .BEGIN_FUZZY_CHECKPOINT_RECORD => c.begin_fuzzy_count
  | .END_FUZZY_CHECKPOINT_RECORD => c.end_fuzzy_count

/-- LogManager::get_total_log_records, the sum of the seven counters. -/
def countsTotal (c : TypeCounts) : Nat :=
  c.abort_count + c.commit_count + c.update_count + c.begin_count
  + c.checkpoint_count + c.begin_fuzzy_count + c.end_fuzzy_count

-- ## The transaction map (std::map<uint64_t, uint64_t>) and txn id sets

/-- std::map<uint64_t,uint64_t> as a key-sorted association list. -/
def mapLookup : List (Nat × Nat) → Nat → Option Nat
  | [], _ => none
  | (k', v) :: rest, k => if k = k' then some v else mapLookup rest k

/-- std::map::insert - inserts only if the key is absent (an existing
entry is left unchanged), keeping keys sorted. -/
def mapInsert : List (Nat × Nat) → Nat → Nat → List (Nat × Nat)
  | [], k, v => [(k, v)]
  | (k', v') :: rest, k, v =>
    if k < k' then (k, v) :: (k', v') :: rest
    else if k = k' then (k', v') :: rest
    else (k', v') :: mapInsert rest k v

/-- std::map::erase by key. -/
def mapErase : List (Nat × Nat) → Nat → List (Nat × Nat)
  | [], _ => []
  | (k', v') :: rest, k =>
    if k' = k then mapErase rest k else (k', v') :: mapErase rest k

/-- std::set<uint64_t>::insert - sorted, duplicates ignored. -/
def setInsert : List Nat → Nat → List Nat
  | [], x => [x]
  | y :: rest, x =>
    if x < y then x :: y :: rest
    else if x = y then y :: rest
    else y :: setInsert rest x

-- ## WAL state and buffer-manager interaction trace

/-- One interaction with the buffer manager, in program order.
writePage bundles the fix_page / memcpy into the page at byte offset
off / unfix_page(dirty := true) bracket the source uses for both redo
and undo writes. -/
inductive BufferOp where
  | flushPage (page_id : Nat)
  | flushAll
  | writePage (page_id off : Nat) (img : List Nat)
  deriving DecidableEq

/-- The LogManager state (class LogManager fields). -/
structure LogManager where
  log_file : List Nat
  current_offset : Nat
  txn_id_to_first_log_record : List (Nat × Nat)
  log_record_type_to_count : TypeCounts
  fuzzy_checkpoint_page_ids : List Nat
  deriving DecidableEq

def get_total_log_records (s : LogManager) : Nat :=
  countsTotal s.log_record_type_to_count

def get_total_log_records_of_type (s : LogManager) (ty : LogRecordType) : Nat :=
  getCount s.log_record_type_to_count ty

/-- LogManager::reset - point at a new file, clear all in-memory state. -/
def reset (_s : LogManager) (log_file : List Nat) : LogManager :=
  { log_file := log_file
    current_offset := 0
    txn_id_to_first_log_record := []
    log_record_type_to_count := zeroCounts
    fuzzy_checkpoint_page_ids := [] }

-- ## The five append operations (payload first, tag byte last)

/-- LogManager::log_commit. -/
def log_commit (s : LogManager) (txn_id : Nat) : LogManager :=
  let f0 := resizeFile s.log_file (s.current_offset + 1 + 8)
  let f1 := writeBytes f0 (s.current_offset + 1) (u64bytes txn_id)
  let f2 := writeBytes f1 s.current_offset [tagOf .COMMIT_RECORD]
  { s with
    log_file := f2
    current_offset := s.current_offset + 1 + 8
    log_record_type_to_count := bumpCount s.log_record_type_to_count .COMMIT_RECORD
    txn_id_to_first_log_record := mapErase s.txn_id_to_first_log_record txn_id }

/-- LogManager::log_txn_begin.  The ordinal stored in the map is
get_total_log_records() taken before the BEGIN count is incremented. -/
def log_txn_begin (s : LogManager) (txn_id : Nat) : LogManager :=
  let f0 := resizeFile s.log_file (s.current_offset + 1 + 8)
  let f1 := writeBytes f0 (s.current_offset + 1) (u64bytes txn_id)
  let f2 := writeBytes f1 s.current_offset [tagOf .BEGIN_RECORD]
  let total_records := get_total_log_records s
  { s with
    log_file := f2
    current_offset := s.current_offset + 1 + 8
    log_record_type_to_count := bumpCount s.log_record_type_to_count .BEGIN_RECORD
    txn_id_to_first_log_record :=
      mapInsert s.txn_id_to_first_log_record txn_id total_records }

/-- LogManager::log_update. -/
def log_update (s : LogManager) (txn_id page_id length offset : Nat)
    (before_img after_img : List Nat) : LogManager :=
  let f0 := resizeFile s.log_file (s.current_offset + 1 + 4 * 8 + 2 * length)
  let f1 := writeBytes f0 (s.current_offset + 1) (u64bytes txn_id)
  let f2 := writeBytes f1 (s.current_offset + 1 + 8) (u64bytes page_id)
  let f3 := writeBytes f2 (s.current_offset + 1 + 16) (u64bytes length)
  let f4 := writeBytes f3 (s.current_offset + 1 + 24) (u64bytes offset)
  let f5 := writeBytes f4 (s.current_offset + 1 + 32) (blockOf before_img length)
  let f6 := writeBytes f5 (s.current_offset + 1 + 32 + length) (blockOf after_img length)
  let f7 := writeBytes f6 s.current_offset [tagOf .UPDATE_RECORD]
  { s with
    log_file := f7
    current_offset := s.current_offset + 1 + 4 * 8 + 2 * length
    log_record_type_to_count := bumpCount s.log_record_type_to_count .UPDATE_RECORD }

/-- LogManager::log_checkpoint - flush_all_pages first, then the
tag-only record. -/
def log_checkpoint (s : LogManager) : LogManager × List BufferOp :=
  let f0 := resizeFile s.log_file (s.current_offset + 1)
  let f1 := writeBytes f0 s.current_offset [tagOf .CHECKPOINT_RECORD]
  ({ s with
     log_file := f1
     current_offset := s.current_offset + 1
     log_record_type_to_count := bumpCount s.log_record_type_to_count .CHECKPOINT_RECORD },
   [BufferOp.flushAll])

/-- LogManager::log_fuzzy_checkpoint_begin.  dirty_page_ids is the result
of buffer_manager.get_dirty_page_ids(); the call returns the number of
snapshotted pages. -/
def log_fuzzy_checkpoint_begin (s : LogManager) (dirty_page_ids : List Nat) :
    LogManager × Nat :=
  let s' := { s with fuzzy_checkpoint_page_ids := dirty_page_ids }
  let f0 := resizeFile s'.log_file (s'.current_offset + 1)
  let f1 := writeBytes f0 s'.current_offset [tagOf .BEGIN_FUZZY_CHECKPOINT_RECORD]
  ({ s' with
     log_file := f1
     current_offset := s'.current_offset + 1
     log_record_type_to_count :=
       bumpCount s'.log_record_type_to_count .BEGIN_FUZZY_CHECKPOINT_RECORD },
   dirty_page_ids.length)

/-- LogManager::log_fuzzy_checkpoint_do_step - out-of-range steps are a
silent no-op, an in-range step flushes the snapshotted page id. -/
def log_fuzzy_checkpoint_do_step (s : LogManager) (step : Nat) :
    LogManager × List BufferOp :=
  if s.fuzzy_checkpoint_page_ids.length ≤ step then (s, [])
  else (s, [BufferOp.flushPage (s.fuzzy_checkpoint_page_ids.getD step 0)])

/-- LogManager::log_fuzzy_checkpoint_end. -/
def log_fuzzy_checkpoint_end (s : LogManager) : LogManager :=
  let f0 := resizeFile s.log_file (s.current_offset + 1)
  let f1 := writeBytes f0 s.current_offset [tagOf .END_FUZZY_CHECKPOINT_RECORD]
  { s with
    log_file := f1
    current_offset := s.current_offset + 1
    log_record_type_to_count := bumpCount s.log_record_type_to_count .END_FUZZY_CHECKPOINT_RECORD
    fuzzy_checkpoint_page_ids := [] }

-- ## The rollback scan (LogManager::rollback_txn)

/-- class UpdateInfo - one captured UPDATE descriptor. -/
structure UpdateInfo where
  txn_id : Nat
  page_id : Nat
  length : Nat
  offset : Nat
  before_img : List Nat
  after_img : List Nat
  deriving DecidableEq

/-- The rollback scan loop of LogManager::rollback_txn, collecting the
target transaction's UPDATE descriptors in log order.  The loop is
encoded with a fuel argument: each iteration advances the offset by at
least one byte, so fuel ≥ bound - off runs the loop to completion; the
wrapper below supplies bound as fuel.  Branches follow the source: tag 0
ends the scan, checkpoint and fuzzy markers are skipped, BEGIN and
COMMIT are skipped over 9 bytes, a matching ABORT ends the scan, and
every remaining tag is decoded as an UPDATE record. -/
def rollbackScanAux (f : List Nat) (bound txn_id : Nat) :
    Nat → Nat → List UpdateInfo
  | 0, _ => []
  | fuel + 1, off =>
    if off < bound then
      let tag := readByte f off
      if tag = tagOf .INVALID_RECORD_TYPE then []
      else if tag = tagOf .CHECKPOINT_RECORD then
        rollbackScanAux f bound txn_id fuel (off + 1)
      else if tag = tagOf .BEGIN_FUZZY_CHECKPOINT_RECORD then
        rollbackScanAux f bound txn_id fuel (off + 1)
      else if tag = tagOf .END_FUZZY_CHECKPOINT_RECORD then
        rollbackScanAux f bound txn_id fuel (off + 1)
      else if tag = tagOf .BEGIN_RECORD ∨ tag = tagOf .COMMIT_RECORD then
        rollbackScanAux f bound txn_id fuel (off + 1 + 8)
      else if tag = tagOf .ABORT_RECORD then
        let current_txn_id := readU64 f (off + 1)
        if current_txn_id = txn_id then []
        else rollbackScanAux f bound txn_id fuel (off + 1 + 8)
      else
        let current_txn_id := readU64 f (off + 1)
        if current_txn_id = txn_id then
          let page_id := readU64 f (off + 1 + 8)
          let length := readU64 f (off + 1 + 16)
          let offset := readU64 f (off + 1 + 24)
          let before_img := readBytes f (off + 1 + 32) length
          let after_img := readBytes f (off + 1 + 32 + length) length
          ⟨current_txn_id, page_id, length, offset, before_img, after_img⟩ ::
            rollbackScanAux f bound txn_id fuel (off + 1 + 32 + 2 * length)
        else
          let length := readU64 f (off + 1 + 16)
          rollbackScanAux f bound txn_id fuel (off + 1 + 32 + 2 * length)
    else []

/-- The rollback scan from offset 0 up to bound. -/
def rollbackScan (f : List Nat) (bound txn_id : Nat) : List UpdateInfo :=
  rollbackScanAux f bound txn_id bound 0

/-- LogManager::rollback_txn - a no-op for transactions without a map
entry; otherwise scan the log and apply the captured before-images in
reverse order of appearance (each one a fix / memcpy / unfix-dirty
write of length bytes at the record's offset). -/
def rollback_txn (s : LogManager) (txn_id : Nat) : LogManager × List BufferOp :=
  match mapLookup s.txn_id_to_first_log_record txn_id with
  | none => (s, [])
  | some _ =>
    let updates := rollbackScan s.log_file s.current_offset txn_id
    (s, updates.reverse.map (fun u => BufferOp.writePage u.page_id u.offset u.before_img))

/-- LogManager::log_abort - append the ABORT record, then roll the
transaction back, then remove it from the active map. -/
def log_abort (s : LogManager) (txn_id : Nat) : LogManager × List BufferOp :=
  let f0 := resizeFile s.log_file (s.current_offset + 1 + 8)
  let f1 := writeBytes f0 (s.current_offset + 1) (u64bytes txn_id)
  let f2 := writeBytes f1 s.current_offset [tagOf .ABORT_RECORD]
  let s1 := { s with
    log_file := f2
    current_offset := s.current_offset + 1 + 8
    log_record_type_to_count := bumpCount s.log_record_type_to_count .ABORT_RECORD }
  let s2 := (rollback_txn s1 txn_id).1
  let ops := (rollback_txn s1 txn_id).2
  ({ s2 with txn_id_to_first_log_record := mapErase s2.txn_id_to_first_log_record txn_id },
   ops)

-- ## The recovery scan (LogManager::recovery, analysis + redo bookkeeping)

/-- The local state of recovery's forward scan: the two ordered UPDATE
buffers, the aborted-transaction set, plus the LogManager fields the
loop mutates (the transaction map and the per-kind counters). -/
structure RecState where
  updatesPending : List UpdateInfo
  updatesSinceLastCheckpoint : List UpdateInfo
  aborted_txns : List Nat
  txnMap : List (Nat × Nat)
  counts : TypeCounts
  deriving DecidableEq

/-- The forward scan loop of LogManager::recovery, fuel-encoded like
rollbackScanAux.  Per-tag actions follow the source: CHECKPOINT clears
both buffers; BEGIN_FUZZY clears the pending buffer and then moves the
since-checkpoint buffer into it; END_FUZZY clears the pending buffer;
BEGIN inserts (txn_id, get_total_log_records()) before its own count is
incremented; COMMIT erases the map entry; ABORT records the txn id in
the aborted set; every other nonzero tag is decoded as an UPDATE and
appended to the since-checkpoint buffer. -/
def recoveryScanAux (f : List Nat) (bound : Nat) :
    Nat → Nat → RecState → RecState
  | 0, _, st => st
  | fuel + 1, off, st =>
    if off < bound then
      let tag := readByte f off
      if tag = tagOf .INVALID_RECORD_TYPE then st
      else if tag = tagOf .CHECKPOINT_RECORD then
        recoveryScanAux f bound fuel (off + 1)
          { st with
            updatesPending := []
            updatesSinceLastCheckpoint := []
            counts := bumpCount st.counts .CHECKPOINT_RECORD }
      else if tag = tagOf .BEGIN_FUZZY_CHECKPOINT_RECORD then
        recoveryScanAux f bound fuel (off + 1)
          { st with
            updatesPending := st.updatesSinceLastCheckpoint
            updatesSinceLastCheckpoint := []
            counts := bumpCount st.counts .BEGIN_FUZZY_CHECKPOINT_RECORD }
      else if tag = tagOf .END_FUZZY_CHECKPOINT_RECORD then
        recoveryScanAux f bound fuel (off + 1)
          { st with
            updatesPending := []
            counts := bumpCount st.counts .END_FUZZY_CHECKPOINT_RECORD }
      else if tag = tagOf .BEGIN_RECORD then
        let txn_id := readU64 f (off + 1)
        let total_records := countsTotal st.counts
        recoveryScanAux f bound fuel (off + 1 + 8)
          { st with
            txnMap := mapInsert st.txnMap txn_id total_records
            counts := bumpCount st.counts .BEGIN_RECORD }
      else if tag = tagOf .COMMIT_RECORD then
        let txn_id := readU64 f (off + 1)
        recoveryScanAux f bound fuel (off + 1 + 8)
          { st with
            txnMap := mapErase st.txnMap txn_id
            counts := bumpCount st.counts .COMMIT_RECORD }
      else if tag = tagOf .ABORT_RECORD then
        let txn_id := readU64 f (off + 1)
        recoveryScanAux f bound fuel (off + 1 + 8)
          { st with
            aborted_txns := setInsert st.aborted_txns txn_id
            counts := bumpCount st.counts .ABORT_RECORD }
      else
        let current_txn_id := readU64 f (off + 1)
        let page_id := readU64 f (off + 1 + 8)
        let length := readU64 f (off + 1 + 16)
        let offset := readU64 f (off + 1 + 24)
        let before_img := readBytes f (off + 1 + 32) length
        let after_img := readBytes f (off + 1 + 32 + length) length
        recoveryScanAux f bound fuel (off + 1 + 32 + 2 * length)
          { st with
            updatesSinceLastCheckpoint := st.updatesSinceLastCheckpoint ++
              [⟨current_txn_id, page_id, length, offset, before_img, after_img⟩]
            counts := bumpCount st.counts .UPDATE_RECORD }
    else st

/-- Recovery's forward scan from offset 0 up to bound. -/
def recoveryScan (f : List Nat) (bound : Nat) (st : RecState) : RecState :=
  recoveryScanAux f bound bound 0 st

/-- The post-scan merge: if a BEGIN_FUZZY was seen with no later
END_FUZZY or CHECKPOINT, the pending buffer is prepended back onto the
since-checkpoint buffer to form the final redo-candidate set. -/
def recoveryMerge (st : RecState) : RecState :=
  if st.updatesPending = [] then st
  else
    { st with
      updatesSinceLastCheckpoint := st.updatesPending ++ st.updatesSinceLastCheckpoint
      updatesPending := [] }

/-- The for-loops at the end of recovery invoke rollback_txn on each txn
id in order, threading the state and concatenating the emitted buffer
operations. -/
def runRollbacks (s : LogManager) : List Nat → LogManager × List BufferOp
  | [] => (s, [])
  | t :: ts =>
    let s1 := (rollback_txn s t).1
    let ops1 := (rollback_txn s t).2
    let res := runRollbacks s1 ts
    (res.1, ops1 ++ res.2)

/-- LogManager::recovery - zero the counters, set current_offset_ to the
file size, run the forward scan (the transaction map is not cleared; the
caller's reset does that), merge the buffers, re-apply the after-images
of aborted transactions' updates in the final set, then roll back the
aborted transactions followed by the remaining live ones. -/
def recovery (s : LogManager) : LogManager × List BufferOp :=
  let bound := s.log_file.length
  let st0 : RecState :=
    { updatesPending := []
      updatesSinceLastCheckpoint := []
      aborted_txns := []
      txnMap := s.txn_id_to_first_log_record
      counts := zeroCounts }
  let st := recoveryMerge (recoveryScan s.log_file bound st0)
  let s1 := { s with
    current_offset := bound
    txn_id_to_first_log_record := st.txnMap
    log_record_type_to_count := st.counts }
  let redoOps :=
    (st.updatesSinceLastCheckpoint.filter (fun u => u.txn_id ∈ st.aborted_txns)).map
      (fun u => BufferOp.writePage u.page_id u.offset u.after_img)
  let s2 := (runRollbacks s1 st.aborted_txns).1
  let abortOps := (runRollbacks s1 st.aborted_txns).2
  let liveTxns :=
    (s2.txn_id_to_first_log_record.map Prod.fst).filter
      (fun t => t ∉ st.aborted_txns)
  let s3 := (runRollbacks s2 liveTxns).1
  let liveOps := (runRollbacks s2 liveTxns).2
  (s3, redoOps ++ abortOps ++ liveOps)

-- ## Page-content semantics of the buffer-operation trace

/-- Buffer-pool contents: page id and byte index to byte value. -/
def PageStore : Type := Nat → Nat → Nat

/-- Effect of one buffer operation on page contents.  Flushes copy pages
to disk and do not change their contents; a writePage memcpy overwrites
img.length bytes at the given offset of the given page. -/
def applyBufferOp (P : PageStore) : BufferOp → PageStore
  | .flushPage _ => P
  | .flushAll => P
  | .writePage page_id off img => fun p i =>
      if p = page_id ∧ off ≤ i ∧ i < off + img.length then img.getD (i - off) 0
      else P p i

def applyBufferOps (P : PageStore) (ops : List BufferOp) : PageStore :=
  ops.foldl applyBufferOp P

end Buzzdb

namespace Buzzdb

-- ## Record-level view of the log
--
-- A well-formed log file is the concatenation of encoded records.  The
-- record-level scans below restate the two byte-level scan loops at
-- record granularity; the agreement theorems further down prove that on
-- an encoded log the byte-level loops compute exactly these functions.

inductive LogRecord where
  | abortRec (txn_id : Nat)
  | commitRec (txn_id : Nat)
  | updateRec (txn_id page_id length offset : Nat) (before_img after_img : List Nat)
  | beginRec (txn_id : Nat)
  | checkpointRec
  | beginFuzzyRec
  | endFuzzyRec
  deriving DecidableEq

def kindOf : LogRecord → LogRecordType
  | .abortRec _ => .ABORT_RECORD
  | .commitRec _ => .COMMIT_RECORD
  | .updateRec _ _ _ _ _ _ => .UPDATE_RECORD
  | .beginRec _ => .BEGIN_RECORD
  | .checkpointRec => .CHECKPOINT_RECORD
  | .beginFuzzyRec => .BEGIN_FUZZY_CHECKPOINT_RECORD
  | .endFuzzyRec => .END_FUZZY_CHECKPOINT_RECORD

/-- On-disk encoding of one record: tag byte first in the byte order,
payload fields little-endian (the append functions write the payload
first and the tag last, but the finished bytes are these). -/
def encRecord : LogRecord → List Nat
  | .abortRec t => tagOf .ABORT_RECORD :: u64bytes t
  | .commitRec t => tagOf .COMMIT_RECORD :: u64bytes t
  | .updateRec t p len o bi ai =>
      tagOf .UPDATE_RECORD ::
        (u64bytes t ++ u64bytes p ++ u64bytes len ++ u64bytes o ++ bi ++ ai)
  | .beginRec t => tagOf .BEGIN_RECORD :: u64bytes t
  | .checkpointRec => [tagOf .CHECKPOINT_RECORD]
  | .beginFuzzyRec => [tagOf .BEGIN_FUZZY_CHECKPOINT_RECORD]
  | .endFuzzyRec => [tagOf .END_FUZZY_CHECKPOINT_RECORD]

def encodeLog (rs : List LogRecord) : List Nat :=
  (rs.map encRecord).flatten

/-- A record as actually produced by the append engine: integer fields
fit in a uint64 and an UPDATE's images both have exactly `length`
bytes. -/
def WFRecord : LogRecord → Prop
  | .abortRec t => t < 2 ^ 64
  | .commitRec t => t < 2 ^ 64
  | .updateRec t p len o bi ai =>
      t < 2 ^ 64 ∧ p < 2 ^ 64 ∧ len < 2 ^ 64 ∧ o < 2 ^ 64 ∧
      bi.length = len ∧ ai.length = len
  | .beginRec t => t < 2 ^ 64
  | .checkpointRec => True
  | .beginFuzzyRec => True
  | .endFuzzyRec => True

instance : DecidablePred WFRecord := by
  intro r
  cases r <;> simp only [WFRecord] <;> infer_instance

/-- One step of recovery's forward scan, at record granularity. -/
def recStep (st : RecState) : LogRecord → RecState
  | .checkpointRec =>
      { st with
        updatesPending := []
        updatesSinceLastCheckpoint := []
        counts := bumpCount st.counts .CHECKPOINT_RECORD }
  | .beginFuzzyRec =>
      { st with
        updatesPending := st.updatesSinceLastCheckpoint
        updatesSinceLastCheckpoint := []
        counts := bumpCount st.counts .BEGIN_FUZZY_CHECKPOINT_RECORD }
  | .endFuzzyRec =>
      { st with
        updatesPending := []
        counts := bumpCount st.counts .END_FUZZY_CHECKPOINT_RECORD }
  | .beginRec t =>
      { st with
        txnMap := mapInsert st.txnMap t (countsTotal st.counts)
        counts := bumpCount st.counts .BEGIN_RECORD }
  | .commitRec t =>
      { st with
        txnMap := mapErase st.txnMap t
        counts := bumpCount st.counts .COMMIT_RECORD }
  | .abortRec t =>
      { st with
        aborted_txns := setInsert st.aborted_txns t
        counts := bumpCount st.counts .ABORT_RECORD }
  | .updateRec t p len o bi ai =>
      { st with
        updatesSinceLastCheckpoint :=
          st.updatesSinceLastCheckpoint ++ [⟨t, p, len, o, bi, ai⟩]
        counts := bumpCount st.counts .UPDATE_RECORD }

/-- Recovery's forward scan over a record list. -/
def recScanR : List LogRecord → RecState → RecState
  | [], st => st
  | r :: rs, st => recScanR rs (recStep st r)

/-- The rollback scan over a record list: collect the target
transaction's UPDATE descriptors in log order, stop at an ABORT record
of the same transaction, skip everything else. -/
def rbScanR (txn_id : Nat) : List LogRecord → List UpdateInfo
  | [] => []
  | .abortRec t :: rs => if t = txn_id then [] else rbScanR txn_id rs
  | .updateRec t p len o bi ai :: rs =>
      if t = txn_id then ⟨t, p, len, o, bi, ai⟩ :: rbScanR txn_id rs
      else rbScanR txn_id rs
  | _ :: rs => rbScanR txn_id rs

/-- True when r is an ABORT record of the given transaction. -/
def isAbortOf (txn_id : Nat) : LogRecord → Bool
  | .abortRec t => t = txn_id
  | _ => false

/-- The UPDATE descriptor of r when r is an UPDATE of the given
transaction. -/
def updateOf (txn_id : Nat) : LogRecord → Option UpdateInfo
  | .updateRec t p len o bi ai =>
      if t = txn_id then some ⟨t, p, len, o, bi, ai⟩ else none
  | _ => none

-- ## Sequences of API calls (to speak about reachable WAL states)

/-- One call to the WAL public surface that can append to the log.
fuzzyBegin carries the dirty page id list the buffer manager would
return; fuzzyStep appends nothing but is included so that call
sequences can interleave it. -/
inductive WalOp where
  | abortOp (txn_id : Nat)
  | commitOp (txn_id : Nat)
  | updateOp (txn_id page_id length offset : Nat) (before_img after_img : List Nat)
  | beginOp (txn_id : Nat)
  | checkpointOp
  | fuzzyBeginOp (dirty_page_ids : List Nat)
  | fuzzyStepOp (step : Nat)
  | fuzzyEndOp
  deriving DecidableEq

def execOp (s : LogManager) : WalOp → LogManager × List BufferOp
  | .abortOp t => log_abort s t
  | .commitOp t => (log_commit s t, [])
  | .updateOp t p len o bi ai => (log_update s t p len o bi ai, [])
  | .beginOp t => (log_txn_begin s t, [])
  | .checkpointOp => log_checkpoint s
  | .fuzzyBeginOp dirty => ((log_fuzzy_checkpoint_begin s dirty).1, [])
  | .fuzzyStepOp k => log_fuzzy_checkpoint_do_step s k
  | .fuzzyEndOp => (log_fuzzy_checkpoint_end s, [])

def runOps (s : LogManager) : List WalOp → LogManager × List BufferOp
  | [] => (s, [])
  | op :: ops =>
    let s1 := (execOp s op).1
    let ops1 := (execOp s op).2
    let res := runOps s1 ops
    (res.1, ops1 ++ res.2)

/-- The log records an API call appends (fuzzyStep appends none). -/
def recordsOfOp : WalOp → List LogRecord
  | .abortOp t => [.abortRec t]
  | .commitOp t => [.commitRec t]
  | .updateOp t p len o bi ai => [.updateRec t p len o (blockOf bi len) (blockOf ai len)]
  | .beginOp t => [.beginRec t]
  | .checkpointOp => [.checkpointRec]
  | .fuzzyBeginOp _ => [.beginFuzzyRec]
  | .fuzzyStepOp _ => []
  | .fuzzyEndOp => [.endFuzzyRec]

def recordsOfOps (ops : List WalOp) : List LogRecord :=
  (ops.map recordsOfOp).flatten

/-- The blank WAL state: empty log file, everything cleared (the state
after reset on a truncated file). -/
def initialState : LogManager :=
  { log_file := []
    current_offset := 0
    txn_id_to_first_log_record := []
    log_record_type_to_count := zeroCounts
    fuzzy_checkpoint_page_ids := [] }

-- ## Further derived definitions used by the statements below

/-- Reachable-state invariant: the file is the encoding of the records
appended so far, current_offset is its length, and the counters sum to
the number of records. -/
def WFState (s : LogManager) (rs : List LogRecord) : Prop :=
  s.log_file = encodeLog rs ∧
  s.current_offset = (encodeLog rs).length ∧
  countsTotal s.log_record_type_to_count = rs.length

/-- One step of the last-write fold below. -/
def lastWriteStep (p i : Nat) (acc : Option Nat) (op : BufferOp) : Option Nat :=
  match op with
  | BufferOp.writePage page_id off img =>
      if p = page_id ∧ off ≤ i ∧ i < off + img.length then
        some (img.getD (i - off) 0)
      else acc
  | _ => acc

/-- The value written last to byte i of page p by the operations in ops,
if any write covers that byte. -/
def lastWriteVal (ops : List BufferOp) (p i : Nat) : Option Nat :=
  ops.foldl (lastWriteStep p i) none

/-- Effect of one record on whether txn_id's latest BEGIN/COMMIT event
is a BEGIN. -/
def liveStep (txn_id : Nat) (b : Bool) : LogRecord → Bool
  | LogRecord.beginRec t => if t = txn_id then true else b
  | LogRecord.commitRec t => if t = txn_id then false else b
  | _ => b

/-- Whether the last BEGIN or COMMIT record for txn_id in the record
list is a BEGIN (no record at all counts as false). -/
def liveAfterB (txn_id : Nat) (rs : List LogRecord) : Bool :=
  rs.foldl (liveStep txn_id) false

end Buzzdb

namespace Buzzdb

-- ## Basic byte-level lemmas

theorem u64bytes_length (n : Nat) : (u64bytes n).length = 8 := rfl

theorem blockOf_length (bs : List Nat) (len : Nat) : (blockOf bs len).length = len := by
  simp [blockOf]
  omega

theorem blockOf_of_length_eq {bs : List Nat} {len : Nat} (h : bs.length = len) :
    blockOf bs len = bs := by
  subst h
  simp [blockOf]

theorem readByte_append (pre mid : List Nat) (i : Nat) :
    readByte (pre ++ mid) (pre.length + i) = readByte mid i := by
  unfold readByte
  rw [List.getD_append_right pre mid 0 _ (by omega), Nat.add_sub_cancel_left]

theorem readU64_append (pre mid : List Nat) (i : Nat) :
    readU64 (pre ++ mid) (pre.length + i) = readU64 mid i := by
  unfold readU64
  simp only [Nat.add_assoc, readByte_append]

theorem readBytes_append (pre mid : List Nat) (i len : Nat) :
    readBytes (pre ++ mid) (pre.length + i) len = readBytes mid i len := by
  unfold readBytes
  simp only [Nat.add_assoc, readByte_append]

theorem readByte_cons (b : Nat) (rest : List Nat) : readByte (b :: rest) 0 = b := rfl

theorem readU64_u64bytes (n : Nat) (rest : List Nat) :
    readU64 (u64bytes n ++ rest) 0 = n % 18446744073709551616 := by
  have h : ∀ i, i < 8 → readByte (u64bytes n ++ rest) i = (u64bytes n).getD i 0 := by
    intro i hi
    unfold readByte
    exact List.getD_append _ _ _ _ (by simp [u64bytes_length]; omega)
  unfold readU64
  rw [show (0 : Nat) + 1 = 1 by rfl] -- keep literals plain
  rw [h 0 (by omega), h 1 (by omega), h 2 (by omega), h 3 (by omega),
      h 4 (by omega), h 5 (by omega), h 6 (by omega), h 7 (by omega)]
  simp only [u64bytes, List.getD_cons_zero, List.getD_cons_succ]
  omega

theorem readBytes_self (bs rest : List Nat) :
    readBytes (bs ++ rest) 0 bs.length = bs := by
  unfold readBytes
  apply List.ext_getElem
  · simp
  · intro i h1 h2
    simp only [List.getElem_map, List.getElem_range]
    unfold readByte
    rw [Nat.zero_add, List.getD_append _ _ _ _ (by simpa using h2),
        List.getD_eq_getElem _ _ (by simpa using h2)]

theorem readByte_at (pre rest : List Nat) (b : Nat) :
    readByte (pre ++ b :: rest) pre.length = b := by
  have := readByte_append pre (b :: rest) 0
  simpa using this

theorem readU64_at (pre rest : List Nat) (n : Nat) :
    readU64 (pre ++ (u64bytes n ++ rest)) pre.length = n % 18446744073709551616 := by
  have h := readU64_append pre (u64bytes n ++ rest) 0
  simpa [readU64_u64bytes] using h

theorem readBytes_at (pre bs rest : List Nat) :
    readBytes (pre ++ (bs ++ rest)) pre.length bs.length = bs := by
  have h := readBytes_append pre (bs ++ rest) 0 bs.length
  simpa [readBytes_self] using h

-- ## Effect of resize and write_block on an append-shaped file

theorem resizeFile_grow (f : List Nat) (k : Nat) :
    resizeFile f (f.length + k) = f ++ List.replicate k 0 := by
  unfold resizeFile
  rw [List.take_of_length_le (by omega), Nat.add_sub_cancel_left]

theorem writeBytes_append (a c bs : List Nat) (h : bs.length ≤ c.length) :
    writeBytes (a ++ c) a.length bs = a ++ (bs ++ c.drop bs.length) := by
  unfold writeBytes
  rw [List.take_left, List.length_append, Nat.add_sub_cancel_left,
      List.take_of_length_le h]
  have hdrop : (a ++ c).drop (a.length + bs.length) = c.drop bs.length := by
    rw [← List.drop_drop, List.drop_left]
  rw [hdrop, List.append_assoc]

theorem writeBytes_mid (f mid tail bs : List Nat) (h : bs.length ≤ tail.length) :
    writeBytes (f ++ (mid ++ tail)) (f.length + mid.length) bs
      = f ++ ((mid ++ bs) ++ tail.drop bs.length) := by
  have h1 : f ++ (mid ++ tail) = (f ++ mid) ++ tail := by
    rw [List.append_assoc]
  have h2 : f.length + mid.length = (f ++ mid).length := by
    simp
  rw [h1, h2, writeBytes_append _ _ _ h]
  simp [List.append_assoc]

end Buzzdb

namespace Buzzdb

theorem writeBytes_mid' (f mid tail bs : List Nat) (off : Nat)
    (hoff : off = f.length + mid.length) (h : bs.length ≤ tail.length) :
    writeBytes (f ++ (mid ++ tail)) off bs
      = f ++ ((mid ++ bs) ++ tail.drop bs.length) := by
  rw [hoff, writeBytes_mid f mid tail bs h]

/-- Appending a tag-only record: resize by one byte then write the tag. -/
theorem append_tag_record (f : List Nat) (tag : Nat) :
    writeBytes (resizeFile f (f.length + 1)) f.length [tag] = f ++ [tag] := by
  rw [resizeFile_grow]
  have h := writeBytes_mid' f [] (List.replicate 1 0) [tag] f.length (by simp) (by simp)
  simpa using h

/-- Appending a tag + uint64 record: resize by nine bytes, write the
payload at offset + 1, then the tag byte at offset. -/
theorem append_u64_record (f : List Nat) (tag t : Nat) :
    writeBytes
      (writeBytes (resizeFile f (f.length + 1 + 8)) (f.length + 1) (u64bytes t))
      f.length [tag]
      = f ++ tag :: u64bytes t := by
  have h0 : resizeFile f (f.length + 1 + 8) = f ++ ([0] ++ List.replicate 8 0) := by
    rw [show f.length + 1 + 8 = f.length + 9 from by omega, resizeFile_grow]
    rfl
  rw [h0]
  have h1 := writeBytes_mid' f [0] (List.replicate 8 0) (u64bytes t)
    (f.length + 1) (by simp) (by simp [u64bytes_length])
  rw [h1]
  have h2 := writeBytes_mid' f [] (([0] ++ u64bytes t) ++ (List.replicate 8 0).drop 8)
    [tag] f.length (by simp) (by simp [u64bytes_length])
  simpa using h2

end Buzzdb

namespace Buzzdb

/-- Appending an UPDATE record: resize by 33 + 2 * len bytes, write the
four uint64 fields and the two images at their offsets, then the tag. -/
theorem append_update_record (f : List Nat) (t p len o : Nat) (bi ai : List Nat)
    (hbi : bi.length = len) (hai : ai.length = len) :
    writeBytes
      (writeBytes
        (writeBytes
          (writeBytes
            (writeBytes
              (writeBytes
                (writeBytes (resizeFile f (f.length + 1 + 4 * 8 + 2 * len))
                  (f.length + 1) (u64bytes t))
                (f.length + 1 + 8) (u64bytes p))
              (f.length + 1 + 16) (u64bytes len))
            (f.length + 1 + 24) (u64bytes o))
          (f.length + 1 + 32) bi)
        (f.length + 1 + 32 + len) ai)
      f.length [tagOf .UPDATE_RECORD]
      = f ++ encRecord (.updateRec t p len o bi ai) := by
  have h0 : resizeFile f (f.length + 1 + 4 * 8 + 2 * len)
      = f ++ ([0] ++ List.replicate (32 + 2 * len) 0) := by
    rw [show f.length + 1 + 4 * 8 + 2 * len = f.length + (1 + (32 + 2 * len)) from by omega,
        resizeFile_grow, List.replicate_add]
    rfl
  rw [h0]
  rw [writeBytes_mid' f [0] (List.replicate (32 + 2 * len) 0) (u64bytes t)
    (f.length + 1) (by simp [u64bytes_length] <;> omega) (by simp [u64bytes_length] <;> omega)]
  rw [show (List.replicate (32 + 2 * len) (0:Nat)).drop (u64bytes t).length
      = List.replicate (24 + 2 * len) 0 from by
    simp [List.drop_replicate, u64bytes_length]
    try (congr 1; omega)]
  rw [writeBytes_mid' f ([0] ++ u64bytes t) (List.replicate (24 + 2 * len) 0) (u64bytes p)
    (f.length + 1 + 8) (by simp [u64bytes_length] <;> omega) (by simp [u64bytes_length] <;> omega)]
  rw [show (List.replicate (24 + 2 * len) (0:Nat)).drop (u64bytes p).length
      = List.replicate (16 + 2 * len) 0 from by
    simp [List.drop_replicate, u64bytes_length]
    try (congr 1; omega)]
  rw [writeBytes_mid' f (([0] ++ u64bytes t) ++ u64bytes p)
    (List.replicate (16 + 2 * len) 0) (u64bytes len)
    (f.length + 1 + 16) (by simp [u64bytes_length] <;> omega) (by simp [u64bytes_length] <;> omega)]
  rw [show (List.replicate (16 + 2 * len) (0:Nat)).drop (u64bytes len).length
      = List.replicate (8 + 2 * len) 0 from by
    simp [List.drop_replicate, u64bytes_length]
    try (congr 1; omega)]
  rw [writeBytes_mid' f ((([0] ++ u64bytes t) ++ u64bytes p) ++ u64bytes len)
    (List.replicate (8 + 2 * len) 0) (u64bytes o)
    (f.length + 1 + 24) (by simp [u64bytes_length] <;> omega) (by simp [u64bytes_length] <;> omega)]
  rw [show (List.replicate (8 + 2 * len) (0:Nat)).drop (u64bytes o).length
      = List.replicate (2 * len) 0 from by
    simp [List.drop_replicate, u64bytes_length]
    try (congr 1; omega)]
  rw [writeBytes_mid' f (((([0] ++ u64bytes t) ++ u64bytes p) ++ u64bytes len) ++ u64bytes o)
    (List.replicate (2 * len) 0) bi
    (f.length + 1 + 32) (by simp [u64bytes_length] <;> omega) (by simp [hbi] <;> omega)]
  rw [show (List.replicate (2 * len) (0:Nat)).drop bi.length = List.replicate len 0 from by
    simp [List.drop_replicate, hbi]
    try (congr 1; omega)]
  rw [writeBytes_mid' f ((((([0] ++ u64bytes t) ++ u64bytes p) ++ u64bytes len) ++ u64bytes o) ++ bi)
    (List.replicate len 0) ai
    (f.length + 1 + 32 + len) (by simp [u64bytes_length, hbi] <;> omega) (by simp [hai] <;> omega)]
  rw [show (List.replicate len (0:Nat)).drop ai.length = [] from by
    simp [List.drop_replicate, hai]]
  simp only [List.append_assoc, List.append_nil, List.nil_append, List.singleton_append, List.cons_append]
  rw [writeBytes_append f
    (0 :: (u64bytes t ++ (u64bytes p ++ (u64bytes len ++ (u64bytes o ++ (bi ++ ai))))))
    [tagOf .UPDATE_RECORD] (by simp)]
  simp [encRecord, List.append_assoc]

end Buzzdb

namespace Buzzdb

-- ## Characterization of each append operation: when current_offset is
-- the file length (as in every reachable state), an append extends the
-- file by exactly the encoded record and bumps exactly one counter.

theorem rollback_txn_fst (s : LogManager) (t : Nat) : (rollback_txn s t).1 = s := by
  unfold rollback_txn
  cases mapLookup s.txn_id_to_first_log_record t <;> rfl

theorem log_commit_def (s : LogManager) (t : Nat)
    (h : s.current_offset = s.log_file.length) :
    log_commit s t = { s with
      log_file := s.log_file ++ encRecord (.commitRec t)
      current_offset := s.current_offset + 1 + 8
      log_record_type_to_count := bumpCount s.log_record_type_to_count .COMMIT_RECORD
      txn_id_to_first_log_record := mapErase s.txn_id_to_first_log_record t } := by
  simp only [log_commit, h, append_u64_record]
  rfl

theorem log_txn_begin_def (s : LogManager) (t : Nat)
    (h : s.current_offset = s.log_file.length) :
    log_txn_begin s t = { s with
      log_file := s.log_file ++ encRecord (.beginRec t)
      current_offset := s.current_offset + 1 + 8
      log_record_type_to_count := bumpCount s.log_record_type_to_count .BEGIN_RECORD
      txn_id_to_first_log_record :=
        mapInsert s.txn_id_to_first_log_record t (get_total_log_records s) } := by
  simp only [log_txn_begin, h, append_u64_record]
  rfl

theorem log_abort_fst (s : LogManager) (t : Nat)
    (h : s.current_offset = s.log_file.length) :
    (log_abort s t).1 = { s with
      log_file := s.log_file ++ encRecord (.abortRec t)
      current_offset := s.current_offset + 1 + 8
      log_record_type_to_count := bumpCount s.log_record_type_to_count .ABORT_RECORD
      txn_id_to_first_log_record := mapErase s.txn_id_to_first_log_record t } := by
  simp only [log_abort, h, append_u64_record, rollback_txn_fst]
  rfl

theorem log_update_def (s : LogManager) (t p len o : Nat) (bi ai : List Nat)
    (h : s.current_offset = s.log_file.length) :
    log_update s t p len o bi ai = { s with
      log_file := s.log_file ++
        encRecord (.updateRec t p len o (blockOf bi len) (blockOf ai len))
      current_offset := s.current_offset + 1 + 4 * 8 + 2 * len
      log_record_type_to_count := bumpCount s.log_record_type_to_count .UPDATE_RECORD } := by
  simp only [log_update, h,
    append_update_record s.log_file t p len o (blockOf bi len) (blockOf ai len)
      (blockOf_length bi len) (blockOf_length ai len)]

theorem log_checkpoint_def (s : LogManager)
    (h : s.current_offset = s.log_file.length) :
    log_checkpoint s = ({ s with
      log_file := s.log_file ++ encRecord .checkpointRec
      current_offset := s.current_offset + 1
      log_record_type_to_count := bumpCount s.log_record_type_to_count .CHECKPOINT_RECORD },
     [BufferOp.flushAll]) := by
  simp only [log_checkpoint, h, append_tag_record]
  rfl

theorem log_fuzzy_checkpoint_begin_def (s : LogManager) (dirty : List Nat)
    (h : s.current_offset = s.log_file.length) :
    log_fuzzy_checkpoint_begin s dirty = ({ s with
      log_file := s.log_file ++ encRecord .beginFuzzyRec
      current_offset := s.current_offset + 1
      log_record_type_to_count :=
        bumpCount s.log_record_type_to_count .BEGIN_FUZZY_CHECKPOINT_RECORD
      fuzzy_checkpoint_page_ids := dirty },
     dirty.length) := by
  simp only [log_fuzzy_checkpoint_begin, h, append_tag_record]
  rfl

theorem log_fuzzy_checkpoint_end_def (s : LogManager)
    (h : s.current_offset = s.log_file.length) :
    log_fuzzy_checkpoint_end s = { s with
      log_file := s.log_file ++ encRecord .endFuzzyRec
      current_offset := s.current_offset + 1
      log_record_type_to_count :=
        bumpCount s.log_record_type_to_count .END_FUZZY_CHECKPOINT_RECORD
      fuzzy_checkpoint_page_ids := [] } := by
  simp only [log_fuzzy_checkpoint_end, h, append_tag_record]
  rfl

end Buzzdb

namespace Buzzdb

-- ## Reachable-state invariant: the file is the encoding of the records
-- appended so far, current_offset is its length, and the counters sum to
-- the number of records.

theorem encodeLog_append (rs rs' : List LogRecord) :
    encodeLog (rs ++ rs') = encodeLog rs ++ encodeLog rs' := by
  simp [encodeLog]

theorem encodeLog_cons (r : LogRecord) (rs : List LogRecord) :
    encodeLog (r :: rs) = encRecord r ++ encodeLog rs := by
  simp [encodeLog]

theorem countsTotal_bump (c : TypeCounts) (k : LogRecordType)
    (h : k ≠ .INVALID_RECORD_TYPE) :
    countsTotal (bumpCount c k) = countsTotal c + 1 := by
  cases k <;> simp_all [bumpCount, countsTotal] <;> omega

theorem log_fuzzy_checkpoint_do_step_fst (s : LogManager) (k : Nat) :
    (log_fuzzy_checkpoint_do_step s k).1 = s := by
  unfold log_fuzzy_checkpoint_do_step
  split <;> rfl

theorem execOp_wf (s : LogManager) (rs : List LogRecord) (op : WalOp)
    (h : WFState s rs) : WFState (execOp s op).1 (rs ++ recordsOfOp op) := by
  obtain ⟨h1, h2, h3⟩ := h
  have hoff : s.current_offset = s.log_file.length := by rw [h1, h2]
  cases op with
  | abortOp t =>
    refine ⟨?_, ?_, ?_⟩ <;>
      simp [execOp, log_abort_fst s t hoff, recordsOfOp, encodeLog_append, h1, h2, h3,
        encodeLog, encRecord, u64bytes_length, countsTotal_bump]
  | commitOp t =>
    refine ⟨?_, ?_, ?_⟩ <;>
      simp [execOp, log_commit_def s t hoff, recordsOfOp, encodeLog_append, h1, h2, h3,
        encodeLog, encRecord, u64bytes_length, countsTotal_bump]
  | updateOp t p len o bi ai =>
    refine ⟨?_, ?_, ?_⟩ <;>
      simp [execOp, log_update_def s t p len o bi ai hoff, recordsOfOp, encodeLog_append,
        h1, h2, h3, encodeLog, encRecord, u64bytes_length, blockOf_length,
        countsTotal_bump] <;> omega
  | beginOp t =>
    refine ⟨?_, ?_, ?_⟩ <;>
      simp [execOp, log_txn_begin_def s t hoff, recordsOfOp, encodeLog_append, h1, h2, h3,
        encodeLog, encRecord, u64bytes_length, countsTotal_bump]
  | checkpointOp =>
    refine ⟨?_, ?_, ?_⟩ <;>
      simp [execOp, log_checkpoint_def s hoff, recordsOfOp, encodeLog_append, h1, h2, h3,
        encodeLog, encRecord, countsTotal_bump]
  | fuzzyBeginOp dirty =>
    refine ⟨?_, ?_, ?_⟩ <;>
      simp [execOp, log_fuzzy_checkpoint_begin_def s dirty hoff, recordsOfOp,
        encodeLog_append, h1, h2, h3, encodeLog, encRecord, countsTotal_bump]
  | fuzzyStepOp k =>
    refine ⟨?_, ?_, ?_⟩ <;>
      simp [execOp, log_fuzzy_checkpoint_do_step_fst, recordsOfOp, h1, h2, h3]
  | fuzzyEndOp =>
    refine ⟨?_, ?_, ?_⟩ <;>
      simp [execOp, log_fuzzy_checkpoint_end_def s hoff, recordsOfOp, encodeLog_append,
        h1, h2, h3, encodeLog, encRecord, countsTotal_bump]

theorem runOps_wf (ops : List WalOp) :
    ∀ (s : LogManager) (rs : List LogRecord), WFState s rs →
      WFState (runOps s ops).1 (rs ++ recordsOfOps ops) := by
  induction ops with
  | nil => intro s rs h; simpa [runOps, recordsOfOps] using h
  | cons op ops ih =>
    intro s rs h
    have h1 := execOp_wf s rs op h
    have h2 := ih (execOp s op).1 (rs ++ recordsOfOp op) h1
    simpa [runOps, recordsOfOps, List.append_assoc] using h2

theorem initialState_wf : WFState initialState [] := by
  refine ⟨rfl, rfl, rfl⟩

end Buzzdb

namespace Buzzdb

-- ## Reading back the fields of an encoded record

theorem readByte_off (pre mid rest : List Nat) (b : Nat) :
    readByte (pre ++ (mid ++ (b :: rest))) (pre.length + mid.length) = b := by
  have h : pre ++ (mid ++ (b :: rest)) = (pre ++ mid) ++ b :: rest := by simp
  rw [h, show pre.length + mid.length = (pre ++ mid).length from by simp, readByte_at]

theorem readU64_off (pre mid rest : List Nat) (n : Nat) :
    readU64 (pre ++ (mid ++ (u64bytes n ++ rest))) (pre.length + mid.length)
      = n % 18446744073709551616 := by
  have h : pre ++ (mid ++ (u64bytes n ++ rest)) = (pre ++ mid) ++ (u64bytes n ++ rest) := by
    simp
  rw [h, show pre.length + mid.length = (pre ++ mid).length from by simp, readU64_at]

theorem readBytes_off (pre mid bs rest : List Nat) :
    readBytes (pre ++ (mid ++ (bs ++ rest))) (pre.length + mid.length) bs.length = bs := by
  have h : pre ++ (mid ++ (bs ++ rest)) = (pre ++ mid) ++ (bs ++ rest) := by simp
  rw [h, show pre.length + mid.length = (pre ++ mid).length from by simp, readBytes_at]

theorem encRecord_pos (r : LogRecord) : 1 ≤ (encRecord r).length := by
  cases r <;> simp [encRecord]

theorem encRecord_tag (pre rest : List Nat) (r : LogRecord) :
    readByte (pre ++ (encRecord r ++ rest)) pre.length = tagOf (kindOf r) := by
  cases r <;> simp [encRecord, kindOf, List.cons_append] <;>
    exact readByte_at pre _ _

end Buzzdb

namespace Buzzdb

/-- One iteration of recovery's byte-level forward scan, positioned at an
encoded record, performs exactly the record-level step recStep and moves
to the next record boundary. -/
theorem recoveryScanAux_step (pre rest : List Nat) (r : LogRecord) (hwf : WFRecord r)
    (bound fuel : Nat) (st : RecState) (hb : pre.length < bound) :
    recoveryScanAux (pre ++ (encRecord r ++ rest)) bound (fuel + 1) pre.length st
      = recoveryScanAux (pre ++ (encRecord r ++ rest)) bound fuel
          (pre.length + (encRecord r).length) (recStep st r) := by
  have htag := encRecord_tag pre rest r
  cases r with
  | checkpointRec =>
    have htag' : readByte (pre ++ (encRecord .checkpointRec ++ rest)) pre.length = 5 := by
      simpa [kindOf, tagOf] using htag
    simp only [recoveryScanAux, htag', tagOf]
    rw [if_pos hb, if_pos trivial]
    simp [recStep, encRecord, tagOf]
  | beginFuzzyRec =>
    have htag' : readByte (pre ++ (encRecord .beginFuzzyRec ++ rest)) pre.length = 6 := by
      simpa [kindOf, tagOf] using htag
    simp only [recoveryScanAux, htag', tagOf]
    rw [if_pos hb, if_pos trivial]
    simp [recStep, encRecord, tagOf]
  | endFuzzyRec =>
    have htag' : readByte (pre ++ (encRecord .endFuzzyRec ++ rest)) pre.length = 7 := by
      simpa [kindOf, tagOf] using htag
    simp only [recoveryScanAux, htag', tagOf]
    rw [if_pos hb, if_pos trivial]
    simp [recStep, encRecord, tagOf]
  | beginRec t =>
    have ht : t % 18446744073709551616 = t := Nat.mod_eq_of_lt (by exact_mod_cast hwf)
    have hread : readU64 (pre ++ (encRecord (.beginRec t) ++ rest)) (pre.length + 1) = t := by
      have h1 : pre ++ (encRecord (.beginRec t) ++ rest)
          = pre ++ ([tagOf .BEGIN_RECORD] ++ (u64bytes t ++ rest)) := by
        simp [encRecord]
      rw [h1]
      have h2 := readU64_off pre [tagOf .BEGIN_RECORD] rest t
      simpa [ht] using h2
    have htag' : readByte (pre ++ (encRecord (.beginRec t) ++ rest)) pre.length = 4 := by
      simpa [kindOf, tagOf] using htag
    simp only [recoveryScanAux, htag', tagOf]
    rw [if_pos hb, if_pos trivial]
    rw [hread]
    simp [recStep, encRecord, tagOf, u64bytes_length]
  | commitRec t =>
    have ht : t % 18446744073709551616 = t := Nat.mod_eq_of_lt (by exact_mod_cast hwf)
    have hread : readU64 (pre ++ (encRecord (.commitRec t) ++ rest)) (pre.length + 1) = t := by
      have h1 : pre ++ (encRecord (.commitRec t) ++ rest)
          = pre ++ ([tagOf .COMMIT_RECORD] ++ (u64bytes t ++ rest)) := by
        simp [encRecord]
      rw [h1]
      have h2 := readU64_off pre [tagOf .COMMIT_RECORD] rest t
      simpa [ht] using h2
    have htag' : readByte (pre ++ (encRecord (.commitRec t) ++ rest)) pre.length = 2 := by
      simpa [kindOf, tagOf] using htag
    simp only [recoveryScanAux, htag', tagOf]
    rw [if_pos hb, if_pos trivial]
    rw [hread]
    simp [recStep, encRecord, tagOf, u64bytes_length]
  | abortRec t =>
    have ht : t % 18446744073709551616 = t := Nat.mod_eq_of_lt (by exact_mod_cast hwf)
    have hread : readU64 (pre ++ (encRecord (.abortRec t) ++ rest)) (pre.length + 1) = t := by
      have h1 : pre ++ (encRecord (.abortRec t) ++ rest)
          = pre ++ ([tagOf .ABORT_RECORD] ++ (u64bytes t ++ rest)) := by
        simp [encRecord]
      rw [h1]
      have h2 := readU64_off pre [tagOf .ABORT_RECORD] rest t
      simpa [ht] using h2
    have htag' : readByte (pre ++ (encRecord (.abortRec t) ++ rest)) pre.length = 1 := by
      simpa [kindOf, tagOf] using htag
    simp only [recoveryScanAux, htag', tagOf]
    rw [if_pos hb, if_pos trivial]
    rw [hread]
    simp [recStep, encRecord, tagOf, u64bytes_length]
  | updateRec t p len o bi ai =>
    obtain ⟨ht64, hp64, hlen64, ho64, hbi, hai⟩ := hwf
    have hmod : ∀ n : Nat, n < 2 ^ 64 → n % 18446744073709551616 = n := by
      intro n hn
      exact Nat.mod_eq_of_lt (by exact_mod_cast hn)
    have hshape : pre ++ (encRecord (.updateRec t p len o bi ai) ++ rest)
        = pre ++ ([tagOf .UPDATE_RECORD] ++ (u64bytes t ++ (u64bytes p ++ (u64bytes len ++
            (u64bytes o ++ (bi ++ (ai ++ rest))))))) := by
      simp [encRecord]
    have hreadt : readU64 (pre ++ (encRecord (.updateRec t p len o bi ai) ++ rest))
        (pre.length + 1) = t := by
      rw [hshape]
      have h2 := readU64_off pre [tagOf .UPDATE_RECORD]
        (u64bytes p ++ (u64bytes len ++ (u64bytes o ++ (bi ++ (ai ++ rest))))) t
      simpa [hmod t ht64] using h2
    have hreadp : readU64 (pre ++ (encRecord (.updateRec t p len o bi ai) ++ rest))
        (pre.length + 1 + 8) = p := by
      rw [hshape, show pre ++ ([tagOf .UPDATE_RECORD] ++ (u64bytes t ++ (u64bytes p ++
          (u64bytes len ++ (u64bytes o ++ (bi ++ (ai ++ rest)))))))
        = pre ++ ((tagOf .UPDATE_RECORD :: u64bytes t) ++ (u64bytes p ++
          (u64bytes len ++ (u64bytes o ++ (bi ++ (ai ++ rest)))))) from by simp]
      have h2 := readU64_off pre (tagOf .UPDATE_RECORD :: u64bytes t)
        (u64bytes len ++ (u64bytes o ++ (bi ++ (ai ++ rest)))) p
      rw [show pre.length + 1 + 8
          = pre.length + (tagOf LogRecordType.UPDATE_RECORD :: u64bytes t).length from by
        simp [u64bytes_length]]
      simpa [hmod p hp64] using h2
    have hreadlen : readU64 (pre ++ (encRecord (.updateRec t p len o bi ai) ++ rest))
        (pre.length + 1 + 16) = len := by
      rw [hshape, show pre ++ ([tagOf .UPDATE_RECORD] ++ (u64bytes t ++ (u64bytes p ++
          (u64bytes len ++ (u64bytes o ++ (bi ++ (ai ++ rest)))))))
        = pre ++ ((tagOf .UPDATE_RECORD :: (u64bytes t ++ u64bytes p)) ++ (u64bytes len ++
          (u64bytes o ++ (bi ++ (ai ++ rest))))) from by simp]
      have h2 := readU64_off pre (tagOf .UPDATE_RECORD :: (u64bytes t ++ u64bytes p))
        (u64bytes o ++ (bi ++ (ai ++ rest))) len
      rw [show pre.length + 1 + 16
          = pre.length + (tagOf LogRecordType.UPDATE_RECORD ::
              (u64bytes t ++ u64bytes p)).length from by simp [u64bytes_length]]
      simpa [hmod len hlen64] using h2
    have hreado : readU64 (pre ++ (encRecord (.updateRec t p len o bi ai) ++ rest))
        (pre.length + 1 + 24) = o := by
      rw [hshape, show pre ++ ([tagOf .UPDATE_RECORD] ++ (u64bytes t ++ (u64bytes p ++
          (u64bytes len ++ (u64bytes o ++ (bi ++ (ai ++ rest)))))))
        = pre ++ ((tagOf .UPDATE_RECORD :: (u64bytes t ++ u64bytes p ++ u64bytes len)) ++
          (u64bytes o ++ (bi ++ (ai ++ rest)))) from by simp]
      have h2 := readU64_off pre
        (tagOf .UPDATE_RECORD :: (u64bytes t ++ u64bytes p ++ u64bytes len))
        (bi ++ (ai ++ rest)) o
      rw [show pre.length + 1 + 24
          = pre.length + (tagOf LogRecordType.UPDATE_RECORD ::
              (u64bytes t ++ u64bytes p ++ u64bytes len)).length from by simp [u64bytes_length]]
      simpa [hmod o ho64] using h2
    have hreadbi : readBytes (pre ++ (encRecord (.updateRec t p len o bi ai) ++ rest))
        (pre.length + 1 + 32) len = bi := by
      rw [hshape, show pre ++ ([tagOf .UPDATE_RECORD] ++ (u64bytes t ++ (u64bytes p ++
          (u64bytes len ++ (u64bytes o ++ (bi ++ (ai ++ rest)))))))
        = pre ++ ((tagOf .UPDATE_RECORD ::
            (u64bytes t ++ u64bytes p ++ u64bytes len ++ u64bytes o)) ++
          (bi ++ (ai ++ rest))) from by simp]
      have h2 := readBytes_off pre
        (tagOf .UPDATE_RECORD :: (u64bytes t ++ u64bytes p ++ u64bytes len ++ u64bytes o))
        bi (ai ++ rest)
      rw [show pre.length + 1 + 32
          = pre.length + (tagOf LogRecordType.UPDATE_RECORD ::
              (u64bytes t ++ u64bytes p ++ u64bytes len ++ u64bytes o)).length from by
        simp [u64bytes_length]]
      simpa [hbi] using h2
    have hreadai : readBytes (pre ++ (encRecord (.updateRec t p len o bi ai) ++ rest))
        (pre.length + 1 + 32 + len) len = ai := by
      rw [hshape, show pre ++ ([tagOf .UPDATE_RECORD] ++ (u64bytes t ++ (u64bytes p ++
          (u64bytes len ++ (u64bytes o ++ (bi ++ (ai ++ rest)))))))
        = pre ++ ((tagOf .UPDATE_RECORD ::
            (u64bytes t ++ u64bytes p ++ u64bytes len ++ u64bytes o ++ bi)) ++
          (ai ++ rest)) from by simp]
      have h2 := readBytes_off pre
        (tagOf .UPDATE_RECORD ::
          (u64bytes t ++ u64bytes p ++ u64bytes len ++ u64bytes o ++ bi)) ai rest
      rw [show pre.length + 1 + 32 + len
          = pre.length + (tagOf LogRecordType.UPDATE_RECORD ::
              (u64bytes t ++ u64bytes p ++ u64bytes len ++ u64bytes o ++ bi)).length from by
        simp [u64bytes_length, hbi]
        omega]
      simpa [hai] using h2
    have hsize : pre.length + 1 + 32 + 2 * len
        = pre.length + (encRecord (.updateRec t p len o bi ai)).length := by
      simp [encRecord, u64bytes_length, hbi, hai]
      omega
    have htag' : readByte (pre ++ (encRecord (.updateRec t p len o bi ai) ++ rest))
        pre.length = 3 := by
      simpa [kindOf, tagOf] using htag
    simp only [recoveryScanAux, htag', tagOf]
    rw [if_pos hb]
    rw [hreadlen, hreadt, hreadp, hreado, hreadbi, hreadai, hsize]
    simp [recStep]

end Buzzdb

namespace Buzzdb

/-- On an encoded log, recovery's byte-level forward scan computes the
record-level scan, whatever the initial state. -/
theorem recoveryScanAux_agree (rs : List LogRecord) :
    ∀ (pre : List Nat) (fuel : Nat) (st : RecState),
      (∀ r ∈ rs, WFRecord r) →
      (encodeLog rs).length ≤ fuel →
      recoveryScanAux (pre ++ encodeLog rs) (pre ++ encodeLog rs).length fuel pre.length st
        = recScanR rs st := by
  induction rs with
  | nil =>
    intro pre fuel st hwf hfuel
    cases fuel <;> simp [recoveryScanAux, recScanR, encodeLog]
  | cons r rs ih =>
    intro pre fuel st hwf hfuel
    have hpos := encRecord_pos r
    rw [encodeLog_cons] at hfuel ⊢
    cases fuel with
    | zero =>
      exfalso
      rw [List.length_append] at hfuel
      omega
    | succ fuel' =>
      have hb : pre.length < (pre ++ (encRecord r ++ encodeLog rs)).length := by
        simp only [List.length_append]
        omega
      rw [recoveryScanAux_step pre (encodeLog rs) r (hwf r (List.mem_cons_self r rs))
        _ fuel' st hb]
      have hfuel' : (encodeLog rs).length ≤ fuel' := by
        simp [List.length_append] at hfuel
        omega
      have hrec := ih (pre ++ encRecord r) fuel' (recStep st r)
        (fun r' hr' => hwf r' (List.mem_cons_of_mem r hr')) hfuel'
      simpa [recScanR, List.append_assoc, List.length_append] using hrec

/-- Agreement for the scan as recovery invokes it: from offset 0 over the
whole encoded log. -/
theorem recoveryScan_agree (rs : List LogRecord) (hwf : ∀ r ∈ rs, WFRecord r)
    (st : RecState) :
    recoveryScan (encodeLog rs) (encodeLog rs).length st = recScanR rs st := by
  have h := recoveryScanAux_agree rs [] (encodeLog rs).length st hwf (Nat.le_refl _)
  simpa [recoveryScan] using h

end Buzzdb

namespace Buzzdb

/-- One iteration of the byte-level rollback scan, positioned at an
encoded record: markers / BEGIN / COMMIT and foreign records are skipped
to the next record boundary, a matching ABORT ends the scan, a matching
UPDATE is collected. -/
theorem rollbackScanAux_step (pre rest : List Nat) (r : LogRecord) (hwf : WFRecord r)
    (bound fuel txn : Nat) (hb : pre.length < bound) :
    rollbackScanAux (pre ++ (encRecord r ++ rest)) bound txn (fuel + 1) pre.length
      = (match r with
        | .abortRec t =>
            if t = txn then []
            else rollbackScanAux (pre ++ (encRecord r ++ rest)) bound txn fuel
              (pre.length + (encRecord r).length)
        | .updateRec t p len o bi ai =>
            if t = txn then
              ⟨t, p, len, o, bi, ai⟩ ::
                rollbackScanAux (pre ++ (encRecord r ++ rest)) bound txn fuel
                  (pre.length + (encRecord r).length)
            else rollbackScanAux (pre ++ (encRecord r ++ rest)) bound txn fuel
              (pre.length + (encRecord r).length)
        | _ => rollbackScanAux (pre ++ (encRecord r ++ rest)) bound txn fuel
              (pre.length + (encRecord r).length)) := by
  have htag := encRecord_tag pre rest r
  cases r with
  | checkpointRec =>
    have htag' : readByte (pre ++ (encRecord .checkpointRec ++ rest)) pre.length = 5 := by
      simpa [kindOf, tagOf] using htag
    simp only [rollbackScanAux, htag', tagOf]
    rw [if_pos hb]
    simp [encRecord]
  | beginFuzzyRec =>
    have htag' : readByte (pre ++ (encRecord .beginFuzzyRec ++ rest)) pre.length = 6 := by
      simpa [kindOf, tagOf] using htag
    simp only [rollbackScanAux, htag', tagOf]
    rw [if_pos hb]
    simp [encRecord]
  | endFuzzyRec =>
    have htag' : readByte (pre ++ (encRecord .endFuzzyRec ++ rest)) pre.length = 7 := by
      simpa [kindOf, tagOf] using htag
    simp only [rollbackScanAux, htag', tagOf]
    rw [if_pos hb]
    simp [encRecord]
  | beginRec t =>
    have htag' : readByte (pre ++ (encRecord (.beginRec t) ++ rest)) pre.length = 4 := by
      simpa [kindOf, tagOf] using htag
    simp only [rollbackScanAux, htag', tagOf]
    rw [if_pos hb]
    simp [encRecord, u64bytes_length]
  | commitRec t =>
    have htag' : readByte (pre ++ (encRecord (.commitRec t) ++ rest)) pre.length = 2 := by
      simpa [kindOf, tagOf] using htag
    simp only [rollbackScanAux, htag', tagOf]
    rw [if_pos hb]
    simp [encRecord, u64bytes_length]
  | abortRec t =>
    have ht : t % 18446744073709551616 = t := Nat.mod_eq_of_lt (by exact_mod_cast hwf)
    have hread : readU64 (pre ++ (encRecord (.abortRec t) ++ rest)) (pre.length + 1) = t := by
      have h1 : pre ++ (encRecord (.abortRec t) ++ rest)
          = pre ++ ([tagOf .ABORT_RECORD] ++ (u64bytes t ++ rest)) := by
        simp [encRecord]
      rw [h1]
      have h2 := readU64_off pre [tagOf .ABORT_RECORD] rest t
      simpa [ht] using h2
    have htag' : readByte (pre ++ (encRecord (.abortRec t) ++ rest)) pre.length = 1 := by
      simpa [kindOf, tagOf] using htag
    simp only [rollbackScanAux, htag', tagOf]
    rw [if_pos hb]
    rw [hread]
    simp [encRecord, u64bytes_length]
  | updateRec t p len o bi ai =>
    obtain ⟨ht64, hp64, hlen64, ho64, hbi, hai⟩ := hwf
    have hmod : ∀ n : Nat, n < 2 ^ 64 → n % 18446744073709551616 = n := by
      intro n hn
      exact Nat.mod_eq_of_lt (by exact_mod_cast hn)
    have hshape : pre ++ (encRecord (.updateRec t p len o bi ai) ++ rest)
        = pre ++ ([tagOf .UPDATE_RECORD] ++ (u64bytes t ++ (u64bytes p ++ (u64bytes len ++
            (u64bytes o ++ (bi ++ (ai ++ rest))))))) := by
      simp [encRecord]
    have hreadt : readU64 (pre ++ (encRecord (.updateRec t p len o bi ai) ++ rest))
        (pre.length + 1) = t := by
      rw [hshape]
      have h2 := readU64_off pre [tagOf .UPDATE_RECORD]
        (u64bytes p ++ (u64bytes len ++ (u64bytes o ++ (bi ++ (ai ++ rest))))) t
      simpa [hmod t ht64] using h2
    have hreadp : readU64 (pre ++ (encRecord (.updateRec t p len o bi ai) ++ rest))
        (pre.length + 1 + 8) = p := by
      rw [hshape, show pre ++ ([tagOf .UPDATE_RECORD] ++ (u64bytes t ++ (u64bytes p ++
          (u64bytes len ++ (u64bytes o ++ (bi ++ (ai ++ rest)))))))
        = pre ++ ((tagOf .UPDATE_RECORD :: u64bytes t) ++ (u64bytes p ++
          (u64bytes len ++ (u64bytes o ++ (bi ++ (ai ++ rest)))))) from by simp]
      have h2 := readU64_off pre (tagOf .UPDATE_RECORD :: u64bytes t)
        (u64bytes len ++ (u64bytes o ++ (bi ++ (ai ++ rest)))) p
      rw [show pre.length + 1 + 8
          = pre.length + (tagOf LogRecordType.UPDATE_RECORD :: u64bytes t).length from by
        simp [u64bytes_length]]
      simpa [hmod p hp64] using h2
    have hreadlen : readU64 (pre ++ (encRecord (.updateRec t p len o bi ai) ++ rest))
        (pre.length + 1 + 16) = len := by
      rw [hshape, show pre ++ ([tagOf .UPDATE_RECORD] ++ (u64bytes t ++ (u64bytes p ++
          (u64bytes len ++ (u64bytes o ++ (bi ++ (ai ++ rest)))))))
        = pre ++ ((tagOf .UPDATE_RECORD :: (u64bytes t ++ u64bytes p)) ++ (u64bytes len ++
          (u64bytes o ++ (bi ++ (ai ++ rest))))) from by simp]
      have h2 := readU64_off pre (tagOf .UPDATE_RECORD :: (u64bytes t ++ u64bytes p))
        (u64bytes o ++ (bi ++ (ai ++ rest))) len
      rw [show pre.length + 1 + 16
          = pre.length + (tagOf LogRecordType.UPDATE_RECORD ::
              (u64bytes t ++ u64bytes p)).length from by simp [u64bytes_length]]
      simpa [hmod len hlen64] using h2
    have hreado : readU64 (pre ++ (encRecord (.updateRec t p len o bi ai) ++ rest))
        (pre.length + 1 + 24) = o := by
      rw [hshape, show pre ++ ([tagOf .UPDATE_RECORD] ++ (u64bytes t ++ (u64bytes p ++
          (u64bytes len ++ (u64bytes o ++ (bi ++ (ai ++ rest)))))))
        = pre ++ ((tagOf .UPDATE_RECORD :: (u64bytes t ++ u64bytes p ++ u64bytes len)) ++
          (u64bytes o ++ (bi ++ (ai ++ rest)))) from by simp]
      have h2 := readU64_off pre
        (tagOf .UPDATE_RECORD :: (u64bytes t ++ u64bytes p ++ u64bytes len))
        (bi ++ (ai ++ rest)) o
      rw [show pre.length + 1 + 24
          = pre.length + (tagOf LogRecordType.UPDATE_RECORD ::
              (u64bytes t ++ u64bytes p ++ u64bytes len)).length from by simp [u64bytes_length]]
      simpa [hmod o ho64] using h2
    have hreadbi : readBytes (pre ++ (encRecord (.updateRec t p len o bi ai) ++ rest))
        (pre.length + 1 + 32) len = bi := by
      rw [hshape, show pre ++ ([tagOf .UPDATE_RECORD] ++ (u64bytes t ++ (u64bytes p ++
          (u64bytes len ++ (u64bytes o ++ (bi ++ (ai ++ rest)))))))
        = pre ++ ((tagOf .UPDATE_RECORD ::
            (u64bytes t ++ u64bytes p ++ u64bytes len ++ u64bytes o)) ++
          (bi ++ (ai ++ rest))) from by simp]
      have h2 := readBytes_off pre
        (tagOf .UPDATE_RECORD :: (u64bytes t ++ u64bytes p ++ u64bytes len ++ u64bytes o))
        bi (ai ++ rest)
      rw [show pre.length + 1 + 32
          = pre.length + (tagOf LogRecordType.UPDATE_RECORD ::
              (u64bytes t ++ u64bytes p ++ u64bytes len ++ u64bytes o)).length from by
        simp [u64bytes_length]]
      simpa [hbi] using h2
    have hreadai : readBytes (pre ++ (encRecord (.updateRec t p len o bi ai) ++ rest))
        (pre.length + 1 + 32 + len) len = ai := by
      rw [hshape, show pre ++ ([tagOf .UPDATE_RECORD] ++ (u64bytes t ++ (u64bytes p ++
          (u64bytes len ++ (u64bytes o ++ (bi ++ (ai ++ rest)))))))
        = pre ++ ((tagOf .UPDATE_RECORD ::
            (u64bytes t ++ u64bytes p ++ u64bytes len ++ u64bytes o ++ bi)) ++
          (ai ++ rest)) from by simp]
      have h2 := readBytes_off pre
        (tagOf .UPDATE_RECORD ::
          (u64bytes t ++ u64bytes p ++ u64bytes len ++ u64bytes o ++ bi)) ai rest
      rw [show pre.length + 1 + 32 + len
          = pre.length + (tagOf LogRecordType.UPDATE_RECORD ::
              (u64bytes t ++ u64bytes p ++ u64bytes len ++ u64bytes o ++ bi)).length from by
        simp [u64bytes_length, hbi]
        omega]
      simpa [hai] using h2
    have hsize : pre.length + 1 + 32 + 2 * len
        = pre.length + (encRecord (.updateRec t p len o bi ai)).length := by
      simp [encRecord, u64bytes_length, hbi, hai]
      omega
    have htag' : readByte (pre ++ (encRecord (.updateRec t p len o bi ai) ++ rest))
        pre.length = 3 := by
      simpa [kindOf, tagOf] using htag
    simp only [rollbackScanAux, htag', tagOf]
    rw [if_pos hb]
    rw [hreadlen, hreadt, hreadp, hreado, hreadbi, hreadai, hsize]
    simp

end Buzzdb

namespace Buzzdb

/-- On an encoded log, the byte-level rollback scan computes the
record-level rollback scan. -/
theorem rollbackScanAux_agree (rs : List LogRecord) :
    ∀ (pre : List Nat) (fuel txn : Nat),
      (∀ r ∈ rs, WFRecord r) →
      (encodeLog rs).length ≤ fuel →
      rollbackScanAux (pre ++ encodeLog rs) (pre ++ encodeLog rs).length txn fuel pre.length
        = rbScanR txn rs := by
  induction rs with
  | nil =>
    intro pre fuel txn hwf hfuel
    cases fuel <;> simp [rollbackScanAux, rbScanR, encodeLog]
  | cons r rs ih =>
    intro pre fuel txn hwf hfuel
    have hpos := encRecord_pos r
    rw [encodeLog_cons] at hfuel ⊢
    cases fuel with
    | zero =>
      exfalso
      rw [List.length_append] at hfuel
      omega
    | succ fuel' =>
      have hb : pre.length < (pre ++ (encRecord r ++ encodeLog rs)).length := by
        simp only [List.length_append]
        omega
      have hfuel' : (encodeLog rs).length ≤ fuel' := by
        rw [List.length_append] at hfuel
        omega
      have hwf' : ∀ r' ∈ rs, WFRecord r' :=
        fun r' hr' => hwf r' (List.mem_cons_of_mem r hr')
      have hrec := ih (pre ++ encRecord r) fuel' txn hwf' hfuel'
      rw [rollbackScanAux_step pre (encodeLog rs) r (hwf r (List.mem_cons_self r rs))
        _ fuel' txn hb]
      cases r with
      | abortRec t =>
        by_cases ht : t = txn
        · simp [rbScanR, ht]
        · simp only [if_neg ht, rbScanR]
          simpa [List.append_assoc, List.length_append] using hrec
      | updateRec t p len o bi ai =>
        by_cases ht : t = txn
        · simp only [if_pos ht, rbScanR]
          refine congrArg _ ?_
          simpa [List.append_assoc, List.length_append] using hrec
        · simp only [if_neg ht, rbScanR]
          simpa [List.append_assoc, List.length_append] using hrec
      | commitRec t =>
        simp only [rbScanR]
        simpa [List.append_assoc, List.length_append] using hrec
      | beginRec t =>
        simp only [rbScanR]
        simpa [List.append_assoc, List.length_append] using hrec
      | checkpointRec =>
        simp only [rbScanR]
        simpa [List.append_assoc, List.length_append] using hrec
      | beginFuzzyRec =>
        simp only [rbScanR]
        simpa [List.append_assoc, List.length_append] using hrec
      | endFuzzyRec =>
        simp only [rbScanR]
        simpa [List.append_assoc, List.length_append] using hrec

/-- Agreement for the rollback scan as rollback_txn invokes it. -/
theorem rollbackScan_agree (rs : List LogRecord) (txn : Nat)
    (hwf : ∀ r ∈ rs, WFRecord r) :
    rollbackScan (encodeLog rs) (encodeLog rs).length txn = rbScanR txn rs := by
  have h := rollbackScanAux_agree rs [] (encodeLog rs).length txn hwf (Nat.le_refl _)
  simpa [rollbackScan] using h

end Buzzdb

namespace Buzzdb

-- ## Lemmas about the transaction map and the scan state

theorem mapLookup_mapInsert_self (m : List (Nat × Nat)) (k v : Nat)
    (h : mapLookup m k = none) :
    mapLookup (mapInsert m k v) k = some v := by
  induction m with
  | nil => simp [mapInsert, mapLookup]
  | cons kv rest ih =>
    obtain ⟨k', v'⟩ := kv
    by_cases h1 : k = k'
    · simp [mapLookup, h1] at h
    · simp only [mapLookup, if_neg h1] at h
      simp only [mapInsert]
      by_cases h2 : k < k'
      · simp [mapLookup, h2]
      · rw [if_neg h2, if_neg h1]
        simp [mapLookup, if_neg h1, ih h]

theorem mapLookup_mapInsert_ne (m : List (Nat × Nat)) (k v t : Nat) (h : t ≠ k) :
    mapLookup (mapInsert m k v) t = mapLookup m t := by
  induction m with
  | nil => simp [mapInsert, mapLookup, h]
  | cons kv rest ih =>
    obtain ⟨k', v'⟩ := kv
    simp only [mapInsert]
    by_cases h2 : k < k'
    · simp [mapLookup, h, if_pos h2]
    · rw [if_neg h2]
      by_cases h3 : k = k'
      · simp [mapLookup, h3]
      · rw [if_neg h3]
        by_cases h4 : t = k'
        · simp [mapLookup, h4]
        · simp [mapLookup, if_neg h4, ih]

theorem isSome_mapLookup_mapInsert (m : List (Nat × Nat)) (k v t : Nat) :
    (mapLookup (mapInsert m k v) t).isSome
      = (if t = k then true else (mapLookup m t).isSome) := by
  by_cases h : t = k
  · subst h
    cases hl : mapLookup m t with
    | none => simp [mapLookup_mapInsert_self m t v hl]
    | some w =>
      simp only [if_pos rfl]
      induction m with
      | nil => simp [mapLookup] at hl
      | cons kv rest ih =>
        obtain ⟨k', v'⟩ := kv
        simp only [mapInsert]
        by_cases h2 : t < k'
        · rw [if_pos h2]
          simp [mapLookup]
        · rw [if_neg h2]
          by_cases h3 : t = k'
          · rw [if_pos h3]
            simp only [mapLookup] at hl ⊢
            rw [if_pos h3] at hl ⊢
            simp
          · rw [if_neg h3]
            simp only [mapLookup, if_neg h3] at hl ⊢
            exact ih hl
  · simp [h, mapLookup_mapInsert_ne m k v t h]

theorem mapLookup_mapErase (m : List (Nat × Nat)) (k t : Nat) :
    mapLookup (mapErase m k) t = if t = k then none else mapLookup m t := by
  induction m with
  | nil => simp [mapErase, mapLookup]
  | cons kv rest ih =>
    obtain ⟨k', v'⟩ := kv
    simp only [mapErase]
    by_cases h1 : k' = k
    · rw [if_pos h1, ih]
      by_cases h2 : t = k
      · simp [h2]
      · rw [if_neg h2, if_neg h2]
        have h3 : t ≠ k' := by omega
        simp [mapLookup, if_neg h3]
    · rw [if_neg h1]
      by_cases h2 : t = k'
      · have h3 : t ≠ k := by omega
        simp [mapLookup, h2, h3, h1]
      · simp only [mapLookup, if_neg h2]
        exact ih

end Buzzdb

namespace Buzzdb

-- ## Record-level scan lemmas

theorem recScanR_append (rs1 rs2 : List LogRecord) :
    ∀ st : RecState, recScanR (rs1 ++ rs2) st = recScanR rs2 (recScanR rs1 st) := by
  induction rs1 with
  | nil => intro st; simp [recScanR]
  | cons r rs ih => intro st; simp [recScanR, ih]

theorem recStep_total (st : RecState) (r : LogRecord) :
    countsTotal (recStep st r).counts = countsTotal st.counts + 1 := by
  cases r <;> simp [recStep] <;> rw [countsTotal_bump] <;> simp

theorem recScanR_total (rs : List LogRecord) :
    ∀ st : RecState, countsTotal (recScanR rs st).counts = countsTotal st.counts + rs.length := by
  induction rs with
  | nil => intro st; simp [recScanR]
  | cons r rs ih =>
    intro st
    simp [recScanR, ih, recStep_total]
    omega

/-- The two redo buffers after a scan depend only on the records scanned
and the initial buffers, not on the other state components. -/
theorem recScanR_buffers (rs : List LogRecord) :
    ∀ st st' : RecState,
      st.updatesPending = st'.updatesPending →
      st.updatesSinceLastCheckpoint = st'.updatesSinceLastCheckpoint →
      (recScanR rs st).updatesPending = (recScanR rs st').updatesPending ∧
      (recScanR rs st).updatesSinceLastCheckpoint
        = (recScanR rs st').updatesSinceLastCheckpoint := by
  induction rs with
  | nil => intro st st' h1 h2; exact ⟨h1, h2⟩
  | cons r rs ih =>
    intro st st' h1 h2
    simp only [recScanR]
    refine ih (recStep st r) (recStep st' r) ?_ ?_ <;>
      cases r <;> simp [recStep, h1, h2]

theorem runRollbacks_fst (ts : List Nat) : ∀ s : LogManager, (runRollbacks s ts).1 = s := by
  induction ts with
  | nil => intro s; rfl
  | cons t ts ih =>
    intro s
    simp only [runRollbacks]
    rw [rollback_txn_fst, ih]

theorem recoveryMerge_counts (st : RecState) : (recoveryMerge st).counts = st.counts := by
  unfold recoveryMerge
  split <;> rfl

theorem recoveryMerge_txnMap (st : RecState) : (recoveryMerge st).txnMap = st.txnMap := by
  unfold recoveryMerge
  split <;> rfl

theorem recoveryMerge_aborted (st : RecState) :
    (recoveryMerge st).aborted_txns = st.aborted_txns := by
  unfold recoveryMerge
  split <;> rfl

/-- The WAL state recovery returns: current_offset is the file size, and
the map and counters are those reconstructed by the (merged) scan; the
rollback loops do not alter the WAL state. -/
theorem recovery_fst (s : LogManager) :
    (recovery s).1 = { s with
      current_offset := s.log_file.length
      txn_id_to_first_log_record :=
        (recoveryMerge (recoveryScan s.log_file s.log_file.length
          ⟨[], [], [], s.txn_id_to_first_log_record, zeroCounts⟩)).txnMap
      log_record_type_to_count :=
        (recoveryMerge (recoveryScan s.log_file s.log_file.length
          ⟨[], [], [], s.txn_id_to_first_log_record, zeroCounts⟩)).counts } := by
  simp only [recovery, runRollbacks_fst]

-- ## Page-content lemmas for the buffer-operation interpreter

theorem foldl_lastWrite (p i : Nat) (ops : List BufferOp) :
    ∀ acc : Option Nat,
      ops.foldl (lastWriteStep p i) acc = (lastWriteVal ops p i).or acc := by
  induction ops with
  | nil => intro acc; simp [lastWriteVal, Option.or]
  | cons op ops ih =>
    intro acc
    simp only [lastWriteVal, List.foldl_cons]
    rw [ih, ih]
    cases hl : lastWriteVal ops p i with
    | some v => simp [hl, Option.or]
    | none =>
      simp only [hl, Option.or]
      cases op with
      | writePage pid off img =>
        by_cases h : p = pid ∧ off ≤ i ∧ i < off + img.length
        · simp [lastWriteStep, if_pos h]
        · simp [lastWriteStep, if_neg h]
      | flushPage pid => simp [lastWriteStep]
      | flushAll => simp [lastWriteStep]

theorem applyBufferOps_apply (ops : List BufferOp) :
    ∀ (P : PageStore) (p i : Nat),
      applyBufferOps P ops p i = (lastWriteVal ops p i).getD (P p i) := by
  induction ops with
  | nil => intro P p i; simp [applyBufferOps, lastWriteVal, Option.getD]
  | cons op ops ih =>
    intro P p i
    have h1 : applyBufferOps P (op :: ops) = applyBufferOps (applyBufferOp P op) ops := rfl
    rw [h1, ih]
    have h2 : lastWriteVal (op :: ops) p i
        = (lastWriteVal ops p i).or (lastWriteStep p i none op) := by
      simp only [lastWriteVal, List.foldl_cons]
      exact foldl_lastWrite p i ops _
    rw [h2]
    cases hl : lastWriteVal ops p i with
    | some v => simp [Option.or]
    | none =>
      simp only [Option.or]
      cases op with
      | flushPage pid => simp [applyBufferOp, lastWriteStep]
      | flushAll => simp [applyBufferOp, lastWriteStep]
      | writePage pid off img =>
        by_cases h : p = pid ∧ off ≤ i ∧ i < off + img.length
        · simp [applyBufferOp, lastWriteStep, if_pos h]
        · simp [applyBufferOp, lastWriteStep, if_neg h]

/-- Replaying a fixed trace of buffer operations twice leaves the same
page contents as replaying it once: every operation either writes fixed
bytes or leaves contents unchanged. -/
theorem applyBufferOps_idem (P : PageStore) (ops : List BufferOp) :
    applyBufferOps (applyBufferOps P ops) ops = applyBufferOps P ops := by
  funext p i
  rw [applyBufferOps_apply, applyBufferOps_apply]
  cases h : lastWriteVal ops p i with
  | some v => simp
  | none => simp

end Buzzdb

namespace Buzzdb

/-- The rollback scan collects exactly the target transaction's UPDATE
records from the prefix of the log strictly before the first ABORT
record of that transaction. -/
theorem rbScanR_eq_filterMap (txn : Nat) (rs : List LogRecord) :
    rbScanR txn rs
      = (rs.takeWhile (fun r => !(isAbortOf txn r))).filterMap (updateOf txn) := by
  induction rs with
  | nil => simp [rbScanR]
  | cons r rs ih =>
    cases r with
    | abortRec t =>
      by_cases h : t = txn
      · simp [rbScanR, h, isAbortOf, List.takeWhile_cons]
      · simp [rbScanR, h, isAbortOf, List.takeWhile_cons, updateOf, ih]
    | updateRec t p len o bi ai =>
      by_cases h : t = txn
      · simp [rbScanR, h, isAbortOf, List.takeWhile_cons, updateOf, ih]
      · simp [rbScanR, h, isAbortOf, List.takeWhile_cons, updateOf, ih]
    | commitRec t => simp [rbScanR, isAbortOf, List.takeWhile_cons, updateOf, ih]
    | beginRec t => simp [rbScanR, isAbortOf, List.takeWhile_cons, updateOf, ih]
    | checkpointRec => simp [rbScanR, isAbortOf, List.takeWhile_cons, updateOf, ih]
    | beginFuzzyRec => simp [rbScanR, isAbortOf, List.takeWhile_cons, updateOf, ih]
    | endFuzzyRec => simp [rbScanR, isAbortOf, List.takeWhile_cons, updateOf, ih]

/-- Whether a transaction has a map entry after the scan is decided by
its last BEGIN/COMMIT record: BEGIN inserts (or keeps) an entry, COMMIT
erases it, nothing else touches the map. -/
theorem recScanR_lookup_isSome (rs : List LogRecord) :
    ∀ (st : RecState) (t : Nat),
      (mapLookup (recScanR rs st).txnMap t).isSome
        = rs.foldl (liveStep t) (mapLookup st.txnMap t).isSome := by
  induction rs with
  | nil => intro st t; rfl
  | cons r rs ih =>
    intro st t
    simp only [recScanR, List.foldl_cons]
    rw [ih]
    congr 1
    cases r with
    | beginRec t' =>
      simp only [recStep, liveStep]
      rw [isSome_mapLookup_mapInsert]
      by_cases h : t' = t
      · simp [h]
      · simp [h, show t ≠ t' from fun hc => h hc.symm]
    | commitRec t' =>
      simp only [recStep, liveStep]
      rw [mapLookup_mapErase]
      by_cases h : t' = t
      · simp [h]
      · simp [h, show t ≠ t' from fun hc => h hc.symm]
    | abortRec t' => simp [recStep, liveStep]
    | updateRec t'' p len o bi ai => simp [recStep, liveStep]
    | checkpointRec => simp [recStep, liveStep]
    | beginFuzzyRec => simp [recStep, liveStep]
    | endFuzzyRec => simp [recStep, liveStep]

end Buzzdb

namespace Buzzdb

/-- C7: for every transaction id and every WAL state, applying
rollback_txn twice in succession with no intervening appends yields the
same WAL state and the same page contents as applying it once:
rollback_txn never mutates the WAL state, the second invocation replays
the identical before-image write trace, and replaying a write trace
twice is idempotent on page contents. -/
theorem claim7_rollback_idempotent (s : LogManager) (t : Nat) (P : PageStore) :
    (rollback_txn s t).1 = s ∧
    rollback_txn (rollback_txn s t).1 t = rollback_txn s t ∧
    applyBufferOps P ((rollback_txn s t).2 ++ (rollback_txn (rollback_txn s t).1 t).2)
      = applyBufferOps P (rollback_txn s t).2 := by
  have hf := rollback_txn_fst s t
  refine ⟨hf, by rw [hf], ?_⟩
  rw [hf]
  have h1 : applyBufferOps P ((rollback_txn s t).2 ++ (rollback_txn s t).2)
      = applyBufferOps (applyBufferOps P (rollback_txn s t).2) (rollback_txn s t).2 := by
    simp [applyBufferOps, List.foldl_append]
  rw [h1, applyBufferOps_idem]

/-- C9: rollback_txn on a transaction id absent from
txn_id_to_first_log_record, and log_fuzzy_checkpoint_do_step with a step
index at or beyond the snapshot size, are silent no-ops: the state is
returned unchanged and no buffer-manager interaction is emitted. -/
theorem claim9_degenerate_noops (s s' : LogManager) (t k : Nat)
    (h1 : mapLookup s.txn_id_to_first_log_record t = none)
    (h2 : s'.fuzzy_checkpoint_page_ids.length ≤ k) :
    rollback_txn s t = (s, []) ∧ log_fuzzy_checkpoint_do_step s' k = (s', []) := by
  constructor
  · unfold rollback_txn
    rw [h1]
  · unfold log_fuzzy_checkpoint_do_step
    rw [if_pos h2]

theorem claim9_witness :
    rollback_txn initialState 7 = (initialState, []) ∧
    log_fuzzy_checkpoint_do_step initialState 0 = (initialState, []) :=
  claim9_degenerate_noops initialState initialState 7 0 rfl (by decide)

/-- C10: for an in-range step index, log_fuzzy_checkpoint_do_step leaves
every WAL field unchanged (it returns the state as-is, so current_offset,
the counters, the transaction map and the dirty-page snapshot are all
untouched and nothing is appended to the log); its only effect is the
single flush request for the page id stored at that step. -/
theorem claim10_fuzzy_step_frame (s : LogManager) (k : Nat)
    (h : k < s.fuzzy_checkpoint_page_ids.length) :
    log_fuzzy_checkpoint_do_step s k
      = (s, [BufferOp.flushPage (s.fuzzy_checkpoint_page_ids.getD k 0)]) := by
  unfold log_fuzzy_checkpoint_do_step
  rw [if_neg (by omega)]

theorem claim10_witness :
    log_fuzzy_checkpoint_do_step
        { initialState with fuzzy_checkpoint_page_ids := [42, 43] } 1
      = ({ initialState with fuzzy_checkpoint_page_ids := [42, 43] },
         [BufferOp.flushPage 43]) := by
  have h := claim10_fuzzy_step_frame
    { initialState with fuzzy_checkpoint_page_ids := [42, 43] } 1 (by decide)
  simpa using h

end Buzzdb

namespace Buzzdb

theorem recoveryMerge_since (st : RecState) :
    (recoveryMerge st).updatesSinceLastCheckpoint
      = if st.updatesPending = [] then st.updatesSinceLastCheckpoint
        else st.updatesPending ++ st.updatesSinceLastCheckpoint := by
  unfold recoveryMerge
  split <;> simp_all

/-- C4: for a live transaction (present in the map), rollback_txn scans
the encoded log from offset 0, collects exactly the UPDATE records of
that transaction up to (and stopping at) its own ABORT record while
skipping every other record, and emits their before-image page writes in
reverse order of appearance, leaving the WAL state unchanged. -/
theorem claim4_rollback_algorithm (s : LogManager) (txn v : Nat) (rs : List LogRecord)
    (hwf : ∀ r ∈ rs, WFRecord r)
    (hfile : s.log_file = encodeLog rs)
    (hoff : s.current_offset = s.log_file.length)
    (hlive : mapLookup s.txn_id_to_first_log_record txn = some v) :
    rollback_txn s txn
      = (s, ((rbScanR txn rs).reverse).map
          (fun u => BufferOp.writePage u.page_id u.offset u.before_img))
    ∧ rbScanR txn rs
      = (rs.takeWhile (fun r => !(isAbortOf txn r))).filterMap (updateOf txn) := by
  refine ⟨?_, rbScanR_eq_filterMap txn rs⟩
  unfold rollback_txn
  rw [hlive]
  rw [show rollbackScan s.log_file s.current_offset txn
      = rollbackScan (encodeLog rs) (encodeLog rs).length txn from by rw [hoff, hfile]]
  rw [rollbackScan_agree rs txn hwf]

theorem claim4_witness :
    rollback_txn
        ⟨encodeLog [LogRecord.beginRec 5, LogRecord.updateRec 5 1 2 4 [1, 2] [3, 4],
            LogRecord.updateRec 6 1 2 0 [5, 6] [7, 8], LogRecord.updateRec 5 2 1 0 [9] [10],
            LogRecord.abortRec 5, LogRecord.updateRec 5 3 1 0 [11] [12]],
          (encodeLog [LogRecord.beginRec 5, LogRecord.updateRec 5 1 2 4 [1, 2] [3, 4],
            LogRecord.updateRec 6 1 2 0 [5, 6] [7, 8], LogRecord.updateRec 5 2 1 0 [9] [10],
            LogRecord.abortRec 5, LogRecord.updateRec 5 3 1 0 [11] [12]]).length,
          [(5, 0)], zeroCounts, []⟩ 5
      = (⟨encodeLog [LogRecord.beginRec 5, LogRecord.updateRec 5 1 2 4 [1, 2] [3, 4],
            LogRecord.updateRec 6 1 2 0 [5, 6] [7, 8], LogRecord.updateRec 5 2 1 0 [9] [10],
            LogRecord.abortRec 5, LogRecord.updateRec 5 3 1 0 [11] [12]],
          (encodeLog [LogRecord.beginRec 5, LogRecord.updateRec 5 1 2 4 [1, 2] [3, 4],
            LogRecord.updateRec 6 1 2 0 [5, 6] [7, 8], LogRecord.updateRec 5 2 1 0 [9] [10],
            LogRecord.abortRec 5, LogRecord.updateRec 5 3 1 0 [11] [12]]).length,
          [(5, 0)], zeroCounts, []⟩,
         ((rbScanR 5 [LogRecord.beginRec 5, LogRecord.updateRec 5 1 2 4 [1, 2] [3, 4],
            LogRecord.updateRec 6 1 2 0 [5, 6] [7, 8], LogRecord.updateRec 5 2 1 0 [9] [10],
            LogRecord.abortRec 5, LogRecord.updateRec 5 3 1 0 [11] [12]]).reverse).map
           (fun u => BufferOp.writePage u.page_id u.offset u.before_img))
    ∧ rbScanR 5 [LogRecord.beginRec 5, LogRecord.updateRec 5 1 2 4 [1, 2] [3, 4],
        LogRecord.updateRec 6 1 2 0 [5, 6] [7, 8], LogRecord.updateRec 5 2 1 0 [9] [10],
        LogRecord.abortRec 5, LogRecord.updateRec 5 3 1 0 [11] [12]]
      = (([LogRecord.beginRec 5, LogRecord.updateRec 5 1 2 4 [1, 2] [3, 4],
          LogRecord.updateRec 6 1 2 0 [5, 6] [7, 8], LogRecord.updateRec 5 2 1 0 [9] [10],
          LogRecord.abortRec 5, LogRecord.updateRec 5 3 1 0 [11] [12]].takeWhile
            (fun r => !(isAbortOf 5 r))).filterMap (updateOf 5)) :=
  claim4_rollback_algorithm _ 5 0 _ (by decide) rfl rfl rfl

/-- C5: during recovery's forward scan a CHECKPOINT record discards both
redo buffers, and consequently the final redo-candidate set of a log
with a CHECKPOINT in it equals that of the log suffix after the
CHECKPOINT: no UPDATE preceding the CHECKPOINT is in the final set. -/
theorem claim5_checkpoint_discards (rs1 rs2 : List LogRecord) (m : List (Nat × Nat))
    (hwf1 : ∀ r ∈ rs1, WFRecord r) (hwf2 : ∀ r ∈ rs2, WFRecord r) :
    (∀ st : RecState,
      (recStep st LogRecord.checkpointRec).updatesPending = [] ∧
      (recStep st LogRecord.checkpointRec).updatesSinceLastCheckpoint = []) ∧
    (recoveryMerge (recoveryScan (encodeLog (rs1 ++ LogRecord.checkpointRec :: rs2))
        (encodeLog (rs1 ++ LogRecord.checkpointRec :: rs2)).length
        ⟨[], [], [], m, zeroCounts⟩)).updatesSinceLastCheckpoint
      = (recoveryMerge (recoveryScan (encodeLog rs2) (encodeLog rs2).length
          ⟨[], [], [], m, zeroCounts⟩)).updatesSinceLastCheckpoint := by
  refine ⟨fun st => ⟨rfl, rfl⟩, ?_⟩
  have hwfall : ∀ r ∈ rs1 ++ LogRecord.checkpointRec :: rs2, WFRecord r := by
    intro r hr
    rcases List.mem_append.mp hr with h | h
    · exact hwf1 r h
    · rcases List.mem_cons.mp h with h' | h'
      · subst h'
        trivial
      · exact hwf2 r h'
  rw [recoveryScan_agree _ hwfall, recoveryScan_agree _ hwf2]
  rw [show rs1 ++ LogRecord.checkpointRec :: rs2
      = (rs1 ++ [LogRecord.checkpointRec]) ++ rs2 from by simp]
  rw [recScanR_append]
  have hbuf := recScanR_buffers rs2
    (recScanR (rs1 ++ [LogRecord.checkpointRec]) ⟨[], [], [], m, zeroCounts⟩)
    ⟨[], [], [], m, zeroCounts⟩
    (by rw [recScanR_append]; rfl)
    (by rw [recScanR_append]; rfl)
  rw [recoveryMerge_since, recoveryMerge_since, hbuf.1, hbuf.2]

theorem claim5_witness :
    (∀ st : RecState,
      (recStep st LogRecord.checkpointRec).updatesPending = [] ∧
      (recStep st LogRecord.checkpointRec).updatesSinceLastCheckpoint = []) ∧
    (recoveryMerge (recoveryScan
        (encodeLog ([LogRecord.updateRec 1 1 1 0 [5] [6]] ++ LogRecord.checkpointRec :: []))
        (encodeLog ([LogRecord.updateRec 1 1 1 0 [5] [6]] ++ LogRecord.checkpointRec :: [])).length
        ⟨[], [], [], [], zeroCounts⟩)).updatesSinceLastCheckpoint
      = (recoveryMerge (recoveryScan (encodeLog []) (encodeLog []).length
          ⟨[], [], [], [], zeroCounts⟩)).updatesSinceLastCheckpoint :=
  claim5_checkpoint_discards [LogRecord.updateRec 1 1 1 0 [5] [6]] [] []
    (by decide) (by decide)

end Buzzdb

namespace Buzzdb

/-- C8: after any sequence of API calls from the blank state,
get_total_log_records equals the number of records those calls appended;
after recovery on an encoded log it equals the number of records decoded;
and every single call bumps the per-kind counters by exactly the kinds of
the records it appends (one bump per append, none for fuzzy steps). -/
theorem claim8_total_records (ops : List WalOp) (rs : List LogRecord) (s : LogManager)
    (hwf : ∀ r ∈ rs, WFRecord r) :
    get_total_log_records (runOps initialState ops).1 = (recordsOfOps ops).length
    ∧ get_total_log_records (recovery (reset s (encodeLog rs))).1 = rs.length
    ∧ (∀ (s' : LogManager) (op : WalOp),
        (execOp s' op).1.log_record_type_to_count
          = (recordsOfOp op).foldl (fun c r => bumpCount c (kindOf r))
              s'.log_record_type_to_count) := by
  refine ⟨?_, ?_, ?_⟩
  · have h := runOps_wf ops initialState [] initialState_wf
    simpa [get_total_log_records] using h.2.2
  · rw [get_total_log_records, recovery_fst]
    simp only [recoveryMerge_counts]
    show countsTotal (recoveryScan (encodeLog rs) (encodeLog rs).length
        ⟨[], [], [], [], zeroCounts⟩).counts = rs.length
    rw [recoveryScan_agree rs hwf, recScanR_total]
    simp [countsTotal, zeroCounts]
  · intro s' op
    cases op with
    | abortOp t =>
      simp only [execOp, log_abort, rollback_txn_fst, recordsOfOp, List.foldl, kindOf]
    | commitOp t => simp [execOp, log_commit, recordsOfOp, kindOf]
    | updateOp t p len o bi ai => simp [execOp, log_update, recordsOfOp, kindOf]
    | beginOp t => simp [execOp, log_txn_begin, recordsOfOp, kindOf]
    | checkpointOp => simp [execOp, log_checkpoint, recordsOfOp, kindOf]
    | fuzzyBeginOp dirty => simp [execOp, log_fuzzy_checkpoint_begin, recordsOfOp, kindOf]
    | fuzzyStepOp k =>
      simp only [execOp, recordsOfOp, List.foldl]
      rw [log_fuzzy_checkpoint_do_step_fst]
    | fuzzyEndOp => simp [execOp, log_fuzzy_checkpoint_end, recordsOfOp, kindOf]

theorem claim8_witness :
    get_total_log_records (runOps initialState
        [WalOp.beginOp 1, WalOp.updateOp 1 0 1 0 [3] [4], WalOp.fuzzyStepOp 0,
         WalOp.commitOp 1]).1
      = (recordsOfOps [WalOp.beginOp 1, WalOp.updateOp 1 0 1 0 [3] [4], WalOp.fuzzyStepOp 0,
          WalOp.commitOp 1]).length
    ∧ get_total_log_records (recovery (reset initialState
        (encodeLog [LogRecord.beginRec 2, LogRecord.commitRec 2]))).1
      = ([LogRecord.beginRec 2, LogRecord.commitRec 2] : List LogRecord).length
    ∧ (∀ (s' : LogManager) (op : WalOp),
        (execOp s' op).1.log_record_type_to_count
          = (recordsOfOp op).foldl (fun c r => bumpCount c (kindOf r))
              s'.log_record_type_to_count) :=
  claim8_total_records
    [WalOp.beginOp 1, WalOp.updateOp 1 0 1 0 [3] [4], WalOp.fuzzyStepOp 0, WalOp.commitOp 1]
    [LogRecord.beginRec 2, LogRecord.commitRec 2] initialState (by decide)

end Buzzdb

namespace Buzzdb

/-- C1 counterexample: recovery scan of the log
[UPDATE(txn 1), BEGIN_FUZZY, BEGIN_FUZZY] (two BEGIN_FUZZY records with
no intervening END_FUZZY or CHECKPOINT).  The claim predicts that the
update recorded before the first BEGIN_FUZZY is still in the pending
buffer after the second; in fact the pending buffer is empty, because
the BEGIN_FUZZY handler clears `updatesPending` before moving the
since-checkpoint buffer into it, discarding what was already pending. -/
theorem claim1_counterexample :
    (recoveryScan
        (encodeLog [LogRecord.updateRec 1 2 1 0 [7] [9],
          LogRecord.beginFuzzyRec, LogRecord.beginFuzzyRec])
        (encodeLog [LogRecord.updateRec 1 2 1 0 [7] [9],
          LogRecord.beginFuzzyRec, LogRecord.beginFuzzyRec]).length
        ⟨[], [], [], [], zeroCounts⟩).updatesPending = [] := by
  decide

/-- C1 amended: on BEGIN_FUZZY the pending buffer is replaced by the
contents of updates_since_last_checkpoint (descriptors already pending
are discarded, not preserved by appending), and the since-checkpoint
buffer is cleared; the byte-level scan of any well-formed log ending in
a BEGIN_FUZZY leaves exactly the prior since-checkpoint buffer pending
and an empty since-checkpoint buffer. -/
theorem claim1_beginfuzzy_replaces (rs : List LogRecord) (m : List (Nat × Nat))
    (hwf : ∀ r ∈ rs, WFRecord r) :
    (∀ st : RecState, recStep st LogRecord.beginFuzzyRec
        = { st with
            updatesPending := st.updatesSinceLastCheckpoint
            updatesSinceLastCheckpoint := []
            counts := bumpCount st.counts LogRecordType.BEGIN_FUZZY_CHECKPOINT_RECORD }) ∧
    (recoveryScan (encodeLog (rs ++ [LogRecord.beginFuzzyRec]))
        (encodeLog (rs ++ [LogRecord.beginFuzzyRec])).length
        ⟨[], [], [], m, zeroCounts⟩).updatesPending
      = (recoveryScan (encodeLog rs) (encodeLog rs).length
          ⟨[], [], [], m, zeroCounts⟩).updatesSinceLastCheckpoint ∧
    (recoveryScan (encodeLog (rs ++ [LogRecord.beginFuzzyRec]))
        (encodeLog (rs ++ [LogRecord.beginFuzzyRec])).length
        ⟨[], [], [], m, zeroCounts⟩).updatesSinceLastCheckpoint = [] := by
  have hwfall : ∀ r ∈ rs ++ [LogRecord.beginFuzzyRec], WFRecord r := by
    intro r hr
    rcases List.mem_append.mp hr with h | h
    · exact hwf r h
    · rcases List.mem_cons.mp h with h' | h'
      · subst h'
        trivial
      · simp at h'
  refine ⟨fun st => rfl, ?_, ?_⟩
  · rw [recoveryScan_agree _ hwfall, recoveryScan_agree _ hwf, recScanR_append]
    rfl
  · rw [recoveryScan_agree _ hwfall, recScanR_append]
    rfl

theorem claim1_witness :
    (∀ st : RecState, recStep st LogRecord.beginFuzzyRec
        = { st with
            updatesPending := st.updatesSinceLastCheckpoint
            updatesSinceLastCheckpoint := []
            counts := bumpCount st.counts LogRecordType.BEGIN_FUZZY_CHECKPOINT_RECORD }) ∧
    (recoveryScan (encodeLog ([LogRecord.updateRec 1 2 1 0 [7] [9]] ++ [LogRecord.beginFuzzyRec]))
        (encodeLog ([LogRecord.updateRec 1 2 1 0 [7] [9]] ++ [LogRecord.beginFuzzyRec])).length
        ⟨[], [], [], [], zeroCounts⟩).updatesPending
      = (recoveryScan (encodeLog [LogRecord.updateRec 1 2 1 0 [7] [9]])
          (encodeLog [LogRecord.updateRec 1 2 1 0 [7] [9]]).length
          ⟨[], [], [], [], zeroCounts⟩).updatesSinceLastCheckpoint ∧
    (recoveryScan (encodeLog ([LogRecord.updateRec 1 2 1 0 [7] [9]] ++ [LogRecord.beginFuzzyRec]))
        (encodeLog ([LogRecord.updateRec 1 2 1 0 [7] [9]] ++ [LogRecord.beginFuzzyRec])).length
        ⟨[], [], [], [], zeroCounts⟩).updatesSinceLastCheckpoint = [] :=
  claim1_beginfuzzy_replaces [LogRecord.updateRec 1 2 1 0 [7] [9]] [] (by decide)

end Buzzdb

namespace Buzzdb

/-- C2 counterexample: a 42-byte log whose first record starts with the
unknown tag byte 8 (followed by a 32-byte UPDATE-shaped header with
length 0) and whose second record is COMMIT(9).  The claim predicts that
the scan terminates at the unknown tag as if at end-of-log, so no record
would be counted; in fact the scan decodes the unknown-tag record as an
UPDATE and continues into the COMMIT record. -/
theorem claim2_counterexample :
    (recoveryScan
        ((8 :: (u64bytes 1 ++ u64bytes 2 ++ u64bytes 0 ++ u64bytes 0)) ++ (2 :: u64bytes 9))
        ((8 :: (u64bytes 1 ++ u64bytes 2 ++ u64bytes 0 ++ u64bytes 0)) ++ (2 :: u64bytes 9)).length
        ⟨[], [], [], [], zeroCounts⟩).counts.update_count = 1
    ∧ (recoveryScan
        ((8 :: (u64bytes 1 ++ u64bytes 2 ++ u64bytes 0 ++ u64bytes 0)) ++ (2 :: u64bytes 9))
        ((8 :: (u64bytes 1 ++ u64bytes 2 ++ u64bytes 0 ++ u64bytes 0)) ++ (2 :: u64bytes 9)).length
        ⟨[], [], [], [], zeroCounts⟩).counts.commit_count = 1 := by
  constructor <;> decide

/-- C2 amended: only tag 0 terminates a scan as end-of-log.  A tag byte
outside the seven defined kinds and nonzero (any value at least 8) is
decoded by both scan loops exactly as if it were an UPDATE record: a
33-byte header plus two images of the decoded length are consumed and
the scan continues at the following offset. -/
theorem claim2_unknown_tag_is_update (f : List Nat) (bound off fuel txn : Nat)
    (st : RecState) (hb : off < bound) (htag : 8 ≤ readByte f off) :
    recoveryScanAux f bound (fuel + 1) off st
      = recoveryScanAux f bound fuel (off + 1 + 32 + 2 * readU64 f (off + 1 + 16))
          { st with
            updatesSinceLastCheckpoint := st.updatesSinceLastCheckpoint ++
              [⟨readU64 f (off + 1), readU64 f (off + 1 + 8), readU64 f (off + 1 + 16),
                readU64 f (off + 1 + 24),
                readBytes f (off + 1 + 32) (readU64 f (off + 1 + 16)),
                readBytes f (off + 1 + 32 + readU64 f (off + 1 + 16))
                  (readU64 f (off + 1 + 16))⟩]
            counts := bumpCount st.counts LogRecordType.UPDATE_RECORD }
    ∧ rollbackScanAux f bound txn (fuel + 1) off
      = (if readU64 f (off + 1) = txn then
          ⟨readU64 f (off + 1), readU64 f (off + 1 + 8), readU64 f (off + 1 + 16),
            readU64 f (off + 1 + 24),
            readBytes f (off + 1 + 32) (readU64 f (off + 1 + 16)),
            readBytes f (off + 1 + 32 + readU64 f (off + 1 + 16)) (readU64 f (off + 1 + 16))⟩ ::
            rollbackScanAux f bound txn fuel (off + 1 + 32 + 2 * readU64 f (off + 1 + 16))
        else rollbackScanAux f bound txn fuel (off + 1 + 32 + 2 * readU64 f (off + 1 + 16))) := by
  constructor
  · simp only [recoveryScanAux, tagOf]
    rw [if_pos hb, if_neg (by omega), if_neg (by omega), if_neg (by omega),
        if_neg (by omega), if_neg (by omega), if_neg (by omega), if_neg (by omega)]
  · simp only [rollbackScanAux, tagOf]
    rw [if_pos hb, if_neg (by omega), if_neg (by omega), if_neg (by omega),
        if_neg (by omega), if_neg (by omega), if_neg (by omega)]

theorem claim2_witness :
    recoveryScanAux ([8] ++ List.replicate 32 0) 33 (0 + 1) 0 ⟨[], [], [], [], zeroCounts⟩
      = recoveryScanAux ([8] ++ List.replicate 32 0) 33 0
          (0 + 1 + 32 + 2 * readU64 ([8] ++ List.replicate 32 0) (0 + 1 + 16))
          { (⟨[], [], [], [], zeroCounts⟩ : RecState) with
            updatesSinceLastCheckpoint := ([] : List UpdateInfo) ++
              [⟨readU64 ([8] ++ List.replicate 32 0) (0 + 1),
                readU64 ([8] ++ List.replicate 32 0) (0 + 1 + 8),
                readU64 ([8] ++ List.replicate 32 0) (0 + 1 + 16),
                readU64 ([8] ++ List.replicate 32 0) (0 + 1 + 24),
                readBytes ([8] ++ List.replicate 32 0) (0 + 1 + 32)
                  (readU64 ([8] ++ List.replicate 32 0) (0 + 1 + 16)),
                readBytes ([8] ++ List.replicate 32 0)
                  (0 + 1 + 32 + readU64 ([8] ++ List.replicate 32 0) (0 + 1 + 16))
                  (readU64 ([8] ++ List.replicate 32 0) (0 + 1 + 16))⟩]
            counts := bumpCount zeroCounts LogRecordType.UPDATE_RECORD }
    ∧ rollbackScanAux ([8] ++ List.replicate 32 0) 33 5 (0 + 1) 0
      = (if readU64 ([8] ++ List.replicate 32 0) (0 + 1) = 5 then
          ⟨readU64 ([8] ++ List.replicate 32 0) (0 + 1),
            readU64 ([8] ++ List.replicate 32 0) (0 + 1 + 8),
            readU64 ([8] ++ List.replicate 32 0) (0 + 1 + 16),
            readU64 ([8] ++ List.replicate 32 0) (0 + 1 + 24),
            readBytes ([8] ++ List.replicate 32 0) (0 + 1 + 32)
              (readU64 ([8] ++ List.replicate 32 0) (0 + 1 + 16)),
            readBytes ([8] ++ List.replicate 32 0)
              (0 + 1 + 32 + readU64 ([8] ++ List.replicate 32 0) (0 + 1 + 16))
              (readU64 ([8] ++ List.replicate 32 0) (0 + 1 + 16))⟩ ::
            rollbackScanAux ([8] ++ List.replicate 32 0) 33 5 0
              (0 + 1 + 32 + 2 * readU64 ([8] ++ List.replicate 32 0) (0 + 1 + 16))
        else rollbackScanAux ([8] ++ List.replicate 32 0) 33 5 0
              (0 + 1 + 32 + 2 * readU64 ([8] ++ List.replicate 32 0) (0 + 1 + 16))) :=
  claim2_unknown_tag_is_update ([8] ++ List.replicate 32 0) 33 0 0 5
    ⟨[], [], [], [], zeroCounts⟩ (by decide) (by decide)

end Buzzdb

namespace Buzzdb

/-- C3 counterexample: recovery (after reset) on the log
[BEGIN(1), ABORT(1)].  The claim predicts that transaction 1, having an
ABORT record, has no entry in txn_id_to_first_log_record after recovery;
in fact its entry (1, 0) is still present, because recovery's ABORT
handling only adds the id to the aborted set and neither the undo passes
nor rollback_txn erase map entries. -/
theorem claim3_counterexample :
    mapLookup
        (recovery (reset initialState
          (encodeLog [LogRecord.beginRec 1, LogRecord.abortRec 1]))).1.txn_id_to_first_log_record
        1
      = some 0 := by
  decide

/-- C3 amended: during normal operation log_commit and log_abort do
remove the transaction's entry, and so does a COMMIT record during
recovery's scan; but recovery's ABORT handling does not, and the undo
passes never drain the map.  After recovery (from a reset state) on any
well-formed log, an entry for t exists exactly when the last
BEGIN/COMMIT record for t in the log is a BEGIN - in particular, a
transaction whose log records end with BEGIN followed only by ABORT
retains its entry. -/
theorem claim3_map_lifecycle (rs : List LogRecord) (t : Nat) (s s' : LogManager)
    (hwf : ∀ r ∈ rs, WFRecord r) :
    (mapLookup
        (recovery (reset s (encodeLog rs))).1.txn_id_to_first_log_record t).isSome
      = liveAfterB t rs
    ∧ mapLookup (log_commit s' t).txn_id_to_first_log_record t = none
    ∧ mapLookup (log_abort s' t).1.txn_id_to_first_log_record t = none := by
  refine ⟨?_, ?_, ?_⟩
  · rw [recovery_fst]
    simp only [recoveryMerge_txnMap]
    show (mapLookup
        (recoveryScan (encodeLog rs) (encodeLog rs).length
          ⟨[], [], [], [], zeroCounts⟩).txnMap t).isSome = liveAfterB t rs
    rw [recoveryScan_agree rs hwf, recScanR_lookup_isSome]
    rfl
  · simp [log_commit, mapLookup_mapErase]
  · simp [log_abort, mapLookup_mapErase]

theorem claim3_witness :
    (mapLookup
        (recovery (reset initialState
          (encodeLog [LogRecord.beginRec 1, LogRecord.abortRec 1]))).1.txn_id_to_first_log_record
        1).isSome
      = liveAfterB 1 [LogRecord.beginRec 1, LogRecord.abortRec 1]
    ∧ mapLookup (log_commit initialState 1).txn_id_to_first_log_record 1 = none
    ∧ mapLookup (log_abort initialState 1).1.txn_id_to_first_log_record 1 = none :=
  claim3_map_lifecycle [LogRecord.beginRec 1, LogRecord.abortRec 1] 1
    initialState initialState (by decide)

end Buzzdb

namespace Buzzdb

/-- C6 counterexample: after [BEGIN(1)] from the blank state - a
reachable WAL state whose total record count is 1 - the claim predicts
that log_txn_begin(1) inserts the mapping (1, 1).  Instead the map still
holds (1, 0): std::map::insert leaves an existing entry unchanged, so
for a transaction id that is already live the captured ordinal is not
inserted. -/
theorem claim6_counterexample :
    mapLookup (runOps initialState
        [WalOp.beginOp 1, WalOp.beginOp 1]).1.txn_id_to_first_log_record 1 = some 0
    ∧ get_total_log_records (runOps initialState [WalOp.beginOp 1]).1 = 1 := by
  constructor <;> decide

/-- C6 amended: provided t has no existing entry (a fresh transaction
id), log_txn_begin(t) inserts (t, N) where N = get_total_log_records()
taken before the BEGIN itself is counted; in a reachable state N equals
the number of records in the log, and the BEGIN record is appended as
the (N+1)-th record.  Recovery's scan reconstructs the same ordinal:
when the record after a well-formed prefix rs1 is BEGIN(t) with t not
live at that point, the rebuilt map sends t to rs1.length. -/
theorem claim6_begin_ordinal (s : LogManager) (t : Nat) (rs rs1 : List LogRecord)
    (ht : t < 2 ^ 64)
    (hfresh : mapLookup s.txn_id_to_first_log_record t = none)
    (hwfst : WFState s rs)
    (hwf1 : ∀ r ∈ rs1, WFRecord r)
    (hfresh1 : mapLookup (recScanR rs1 ⟨[], [], [], [], zeroCounts⟩).txnMap t = none) :
    mapLookup (log_txn_begin s t).txn_id_to_first_log_record t
      = some (get_total_log_records s)
    ∧ get_total_log_records s = rs.length
    ∧ (log_txn_begin s t).log_file = encodeLog (rs ++ [LogRecord.beginRec t])
    ∧ mapLookup
        (recoveryScan (encodeLog (rs1 ++ [LogRecord.beginRec t]))
          (encodeLog (rs1 ++ [LogRecord.beginRec t])).length
          ⟨[], [], [], [], zeroCounts⟩).txnMap t
      = some rs1.length := by
  obtain ⟨hw1, hw2, hw3⟩ := hwfst
  have hoff : s.current_offset = s.log_file.length := by rw [hw1, hw2]
  refine ⟨?_, hw3, ?_, ?_⟩
  · show mapLookup
        (mapInsert s.txn_id_to_first_log_record t (get_total_log_records s)) t
      = some (get_total_log_records s)
    exact mapLookup_mapInsert_self _ _ _ hfresh
  · rw [log_txn_begin_def s t hoff]
    show s.log_file ++ encRecord (LogRecord.beginRec t)
        = encodeLog (rs ++ [LogRecord.beginRec t])
    rw [hw1, encodeLog_append]
    simp [encodeLog]
  · have hwfall : ∀ r ∈ rs1 ++ [LogRecord.beginRec t], WFRecord r := by
      intro r hr
      rcases List.mem_append.mp hr with h | h
      · exact hwf1 r h
      · rcases List.mem_cons.mp h with h' | h'
        · subst h'
          exact ht
        · simp at h'
    rw [recoveryScan_agree _ hwfall, recScanR_append]
    show mapLookup
        (mapInsert (recScanR rs1 ⟨[], [], [], [], zeroCounts⟩).txnMap t
          (countsTotal (recScanR rs1 ⟨[], [], [], [], zeroCounts⟩).counts)) t
      = some rs1.length
    have htotal : countsTotal (recScanR rs1 ⟨[], [], [], [], zeroCounts⟩).counts
        = rs1.length := by
      rw [recScanR_total]
      simp [countsTotal, zeroCounts]
    rw [htotal]
    exact mapLookup_mapInsert_self _ _ _ hfresh1

theorem claim6_witness :
    mapLookup (log_txn_begin initialState 1).txn_id_to_first_log_record 1
      = some (get_total_log_records initialState)
    ∧ get_total_log_records initialState = ([] : List LogRecord).length
    ∧ (log_txn_begin initialState 1).log_file = encodeLog ([] ++ [LogRecord.beginRec 1])
    ∧ mapLookup
        (recoveryScan (encodeLog ([LogRecord.commitRec 3] ++ [LogRecord.beginRec 1]))
          (encodeLog ([LogRecord.commitRec 3] ++ [LogRecord.beginRec 1])).length
          ⟨[], [], [], [], zeroCounts⟩).txnMap 1
      = some ([LogRecord.commitRec 3] : List LogRecord).length :=
  claim6_begin_ordinal initialState 1 [] [LogRecord.commitRec 3] (by decide) rfl
    ⟨rfl, rfl, rfl⟩ (by decide) (by decide)

end Buzzdb
